import Mathlib

/-!
# weatherAPI: batch weather resolution with a cache in front of the provider

A shallow embedding of `src/routes/weather.js` (the `POST /weather` handler) and
`src/services/weatherService.js` (`getWeatherByCity`, `getWeatherForLocations`),
followed by the properties of the batch resolver.

JavaScript values are the JSON-shaped values the handler can see (`JSVal`).
The collaborators are parameters: the outcome of every `cache.get` call, the
outcome of the `axios.get` call made for a location, and the order in which the
`cache.get` callbacks fire.
-/

deriving instance DecidableEq for Except

namespace WeatherAPI

/-! ## JavaScript values -/

/-- The values that flow through the handler: what `JSON.parse` and `express.json()` produce,
plus `undefined`. Numbers are the integer-valued ones of magnitude below `10^21`, which
`toString` prints in full; an object is the list of its own properties in insertion order. -/
inductive JSVal where
  | undefined : JSVal
  | null : JSVal
  | bool (b : Bool) : JSVal
  | num (n : Int) : JSVal
  | str (s : String) : JSVal
  | arr (items : List JSVal) : JSVal
  | obj (fields : List (String × JSVal)) : JSVal

mutual
/-- Decidable equality on values. -/
def JSVal.decEq : (a b : JSVal) → Decidable (a = b)
  | .undefined, .undefined => isTrue rfl
  | .null, .null => isTrue rfl
  | .bool a, .bool b =>
    if h : a = b then isTrue (by rw [h]) else isFalse (fun e => h (by cases e; rfl))
  | .num a, .num b =>
    if h : a = b then isTrue (by rw [h]) else isFalse (fun e => h (by cases e; rfl))
  | .str a, .str b =>
    if h : a = b then isTrue (by rw [h]) else isFalse (fun e => h (by cases e; rfl))
  | .arr a, .arr b =>
    match JSVal.decEqList a b with
    | isTrue h => isTrue (by rw [h])
    | isFalse h => isFalse (fun e => h (by cases e; rfl))
  | .obj a, .obj b =>
    match JSVal.decEqFields a b with
    | isTrue h => isTrue (by rw [h])
    | isFalse h => isFalse (fun e => h (by cases e; rfl))
  | .undefined, .null | .undefined, .bool _ | .undefined, .num _ | .undefined, .str _
  | .undefined, .arr _ | .undefined, .obj _ => isFalse nofun
  | .null, .undefined | .null, .bool _ | .null, .num _ | .null, .str _
  | .null, .arr _ | .null, .obj _ => isFalse nofun
  | .bool _, .undefined | .bool _, .null | .bool _, .num _ | .bool _, .str _
  | .bool _, .arr _ | .bool _, .obj _ => isFalse nofun
  | .num _, .undefined | .num _, .null | .num _, .bool _ | .num _, .str _
  | .num _, .arr _ | .num _, .obj _ => isFalse nofun
  | .str _, .undefined | .str _, .null | .str _, .bool _ | .str _, .num _
  | .str _, .arr _ | .str _, .obj _ => isFalse nofun
  | .arr _, .undefined | .arr _, .null | .arr _, .bool _ | .arr _, .num _
  | .arr _, .str _ | .arr _, .obj _ => isFalse nofun
  | .obj _, .undefined | .obj _, .null | .obj _, .bool _ | .obj _, .num _
  | .obj _, .str _ | .obj _, .arr _ => isFalse nofun
/-- Decidable equality on lists of values. -/
def JSVal.decEqList : (a b : List JSVal) → Decidable (a = b)
  | [], [] => isTrue rfl
  | [], _ :: _ => isFalse nofun
  | _ :: _, [] => isFalse nofun
  | a :: as, b :: bs =>
    match JSVal.decEq a b, JSVal.decEqList as bs with
    | isTrue h, isTrue t => isTrue (by rw [h, t])
    | isFalse h, _ => isFalse (fun e => h (by cases e; rfl))
    | _, isFalse t => isFalse (fun e => t (by cases e; rfl))
/-- Decidable equality on property lists. -/
def JSVal.decEqFields : (a b : List (String × JSVal)) → Decidable (a = b)
  | [], [] => isTrue rfl
  | [], _ :: _ => isFalse nofun
  | _ :: _, [] => isFalse nofun
  | (k, a) :: as, (l, b) :: bs =>
    if hk : k = l then
      match JSVal.decEq a b, JSVal.decEqFields as bs with
      | isTrue h, isTrue t => isTrue (by rw [hk, h, t])
      | isFalse h, _ => isFalse (fun e => h (by cases e; rfl))
      | _, isFalse t => isFalse (fun e => t (by cases e; rfl))
    else isFalse (fun e => hk (by cases e; rfl))
end

instance : DecidableEq JSVal := JSVal.decEq

/-- JavaScript truthiness (`if (v)`, `v && ...`, `v || ...`). -/
def JSVal.truthy : JSVal → Bool
  | .undefined => false
  | .null => false
  | .bool b => b
  | .num n => decide (n ≠ 0)
  | .str s => decide (s ≠ "")
  | .arr _ => true
  | .obj _ => true

/-- The operator `a || b`: `a` when it is truthy, else `b`. -/
def JSVal.or (a b : JSVal) : JSVal := if a.truthy then a else b

/-- Property read `v.k` (and `v?.k`) for a data property name that no prototype defines
(`status`, `value`, `reason`, `message`, `currentConditions`, ...): an own property of an
object, else `undefined`. The callers guard against `null` and `undefined` receivers. -/
def JSVal.get (v : JSVal) (k : String) : JSVal :=
  match v with
  | .obj fields => (fields.lookup k).getD .undefined
  | _ => .undefined

/-- Strict equality `v === 'literal'` against a string literal. -/
def JSVal.isStr (v : JSVal) (lit : String) : Bool :=
  match v with
  | .str s => decide (s = lit)
  | _ => false

/-- Whether the object has an own property of that name. -/
def hasOwn (k : String) (fields : List (String × JSVal)) : Bool :=
  fields.any (fun kv => decide (kv.1 = k))

mutual
/-- The abstract operation ToString, as a template literal applies it. The error is the
message of the TypeError thrown for an object whose own `toString` property (never callable
in parsed JSON) hides `Object.prototype.toString`. -/
def JSVal.toStr : JSVal → Except String String
  | .undefined => .ok "undefined"
  | .null => .ok "null"
  | .bool b => .ok (if b then "true" else "false")
  | .num n => .ok (toString n)
  | .str s => .ok s
  | .arr items => JSVal.join items
  | .obj fields =>
    if hasOwn "toString" fields then .error "Cannot convert object to primitive value"
    else .ok "[object Object]"
/-- The method `Array.prototype.join` with the default separator: `null` and `undefined`
elements give the empty string. -/
def JSVal.join : List JSVal → Except String String
  | [] => .ok ""
  | .undefined :: rest =>
    match rest with
    | [] => .ok ""
    | _ :: _ => (JSVal.join rest).map (fun t => "," ++ t)
  | .null :: rest =>
    match rest with
    | [] => .ok ""
    | _ :: _ => (JSVal.join rest).map (fun t => "," ++ t)
  | v :: rest =>
    match JSVal.toStr v with
    | .error e => .error e
    | .ok s =>
      match rest with
      | [] => .ok s
      | _ :: _ => (JSVal.join rest).map (fun t => s ++ "," ++ t)
end

/-- The method call `loc.toString()`: a TypeError on `null` and `undefined`, and on an
object whose own `toString` property is not a function. -/
def JSVal.toStringMethod : JSVal → Except String String
  | .undefined => .error "Cannot read properties of undefined (reading 'toString')"
  | .null => .error "Cannot read properties of null (reading 'toString')"
  | .obj fields =>
    if hasOwn "toString" fields then .error "loc.toString is not a function"
    else .ok "[object Object]"
  | v => v.toStr

/-! ## Key normalizer (`src/routes/weather.js`, line 20) -/

/-- The characters the regular expression class `\s` matches: the ECMAScript WhiteSpace and
LineTerminator code points. -/
def isWhiteSpace (c : Char) : Bool :=
  let n := c.toNat
  n == 0x09 || n == 0x0A || n == 0x0B || n == 0x0C || n == 0x0D || n == 0x20 || n == 0xA0
    || n == 0x1680 || (0x2000 ≤ n && n ≤ 0x200A) || n == 0x2028 || n == 0x2029
    || n == 0x202F || n == 0x205F || n == 0x3000 || n == 0xFEFF

/-- The simple lowercase mappings of the Unicode Character Database (version 14.0), in
runs `(first, last, stride, delta)` sorted by `first`: each of the code points `first`,
`first + stride`, ..., `last` is mapped to itself plus `delta`. -/
def lowerMappings : List (Nat × Nat × Nat × Int) := [
  (65, 90, 1, 32), (192, 214, 1, 32), (216, 222, 1, 32), (256, 302, 2, 1), (306, 310, 2, 1),
  (313, 327, 2, 1), (330, 374, 2, 1), (376, 376, 1, -121), (377, 381, 2, 1),
  (385, 385, 1, 210), (386, 388, 2, 1), (390, 390, 1, 206), (391, 391, 1, 1),
  (393, 394, 1, 205), (395, 395, 1, 1), (398, 398, 1, 79), (399, 399, 1, 202),
  (400, 400, 1, 203), (401, 401, 1, 1), (403, 403, 1, 205), (404, 404, 1, 207),
  (406, 406, 1, 211), (407, 407, 1, 209), (408, 408, 1, 1), (412, 412, 1, 211),
  (413, 413, 1, 213), (415, 415, 1, 214), (416, 420, 2, 1), (422, 422, 1, 218),
  (423, 423, 1, 1), (425, 425, 1, 218), (428, 428, 1, 1), (430, 430, 1, 218), (431, 431, 1, 1),
  (433, 434, 1, 217), (435, 437, 2, 1), (439, 439, 1, 219), (440, 440, 1, 1), (444, 444, 1, 1),
  (452, 452, 1, 2), (453, 453, 1, 1), (455, 455, 1, 2), (456, 456, 1, 1), (458, 458, 1, 2),
  (459, 475, 2, 1), (478, 494, 2, 1), (497, 497, 1, 2), (498, 500, 2, 1), (502, 502, 1, -97),
  (503, 503, 1, -56), (504, 542, 2, 1), (544, 544, 1, -130), (546, 562, 2, 1),
  (570, 570, 1, 10795), (571, 571, 1, 1), (573, 573, 1, -163), (574, 574, 1, 10792),
  (577, 577, 1, 1), (579, 579, 1, -195), (580, 580, 1, 69), (581, 581, 1, 71),
  (582, 590, 2, 1), (880, 882, 2, 1), (886, 886, 1, 1), (895, 895, 1, 116), (902, 902, 1, 38),
  (904, 906, 1, 37), (908, 908, 1, 64), (910, 911, 1, 63), (913, 929, 1, 32),
  (931, 939, 1, 32), (975, 975, 1, 8), (984, 1006, 2, 1), (1012, 1012, 1, -60),
  (1015, 1015, 1, 1), (1017, 1017, 1, -7), (1018, 1018, 1, 1), (1021, 1023, 1, -130),
  (1024, 1039, 1, 80), (1040, 1071, 1, 32), (1120, 1152, 2, 1), (1162, 1214, 2, 1),
  (1216, 1216, 1, 15), (1217, 1229, 2, 1), (1232, 1326, 2, 1), (1329, 1366, 1, 48),
  (4256, 4293, 1, 7264), (4295, 4295, 1, 7264), (4301, 4301, 1, 7264), (5024, 5103, 1, 38864),
  (5104, 5109, 1, 8), (7312, 7354, 1, -3008), (7357, 7359, 1, -3008), (7680, 7828, 2, 1),
  (7838, 7838, 1, -7615), (7840, 7934, 2, 1), (7944, 7951, 1, -8), (7960, 7965, 1, -8),
  (7976, 7983, 1, -8), (7992, 7999, 1, -8), (8008, 8013, 1, -8), (8025, 8031, 2, -8),
  (8040, 8047, 1, -8), (8072, 8079, 1, -8), (8088, 8095, 1, -8), (8104, 8111, 1, -8),
  (8120, 8121, 1, -8), (8122, 8123, 1, -74), (8124, 8124, 1, -9), (8136, 8139, 1, -86),
  (8140, 8140, 1, -9), (8152, 8153, 1, -8), (8154, 8155, 1, -100), (8168, 8169, 1, -8),
  (8170, 8171, 1, -112), (8172, 8172, 1, -7), (8184, 8185, 1, -128), (8186, 8187, 1, -126),
  (8188, 8188, 1, -9), (8486, 8486, 1, -7517), (8490, 8490, 1, -8383), (8491, 8491, 1, -8262),
  (8498, 8498, 1, 28), (8544, 8559, 1, 16), (8579, 8579, 1, 1), (9398, 9423, 1, 26),
  (11264, 11311, 1, 48), (11360, 11360, 1, 1), (11362, 11362, 1, -10743),
  (11363, 11363, 1, -3814), (11364, 11364, 1, -10727), (11367, 11371, 2, 1),
  (11373, 11373, 1, -10780), (11374, 11374, 1, -10749), (11375, 11375, 1, -10783),
  (11376, 11376, 1, -10782), (11378, 11378, 1, 1), (11381, 11381, 1, 1),
  (11390, 11391, 1, -10815), (11392, 11490, 2, 1), (11499, 11501, 2, 1), (11506, 11506, 1, 1),
  (42560, 42604, 2, 1), (42624, 42650, 2, 1), (42786, 42798, 2, 1), (42802, 42862, 2, 1),
  (42873, 42875, 2, 1), (42877, 42877, 1, -35332), (42878, 42886, 2, 1), (42891, 42891, 1, 1),
  (42893, 42893, 1, -42280), (42896, 42898, 2, 1), (42902, 42920, 2, 1),
  (42922, 42922, 1, -42308), (42923, 42923, 1, -42319), (42924, 42924, 1, -42315),
  (42925, 42925, 1, -42305), (42926, 42926, 1, -42308), (42928, 42928, 1, -42258),
  (42929, 42929, 1, -42282), (42930, 42930, 1, -42261), (42931, 42931, 1, 928),
  (42932, 42946, 2, 1), (42948, 42948, 1, -48), (42949, 42949, 1, -42307),
  (42950, 42950, 1, -35384), (42951, 42953, 2, 1), (42960, 42960, 1, 1), (42966, 42968, 2, 1),
  (42997, 42997, 1, 1), (65313, 65338, 1, 32), (66560, 66599, 1, 40), (66736, 66771, 1, 40),
  (66928, 66938, 1, 39), (66940, 66954, 1, 39), (66956, 66962, 1, 39), (66964, 66965, 1, 39),
  (68736, 68786, 1, 64), (71840, 71871, 1, 32), (93760, 93791, 1, 32), (125184, 125217, 1, 34)]

/-- The code points with the property Cased (version 14.0), in sorted ranges. -/
def casedRanges : List (Nat × Nat) := [
  (65, 90), (97, 122), (170, 170), (181, 181), (186, 186), (192, 214), (216, 246), (248, 442),
  (444, 447), (452, 659), (661, 696), (704, 705), (736, 740), (837, 837), (880, 883),
  (886, 887), (890, 893), (895, 895), (902, 902), (904, 906), (908, 908), (910, 929),
  (931, 1013), (1015, 1153), (1162, 1327), (1329, 1366), (1376, 1416), (4256, 4293),
  (4295, 4295), (4301, 4301), (4304, 4346), (4349, 4351), (5024, 5109), (5112, 5117),
  (7296, 7304), (7312, 7354), (7357, 7359), (7424, 7615), (7680, 7957), (7960, 7965),
  (7968, 8005), (8008, 8013), (8016, 8023), (8025, 8025), (8027, 8027), (8029, 8029),
  (8031, 8061), (8064, 8116), (8118, 8124), (8126, 8126), (8130, 8132), (8134, 8140),
  (8144, 8147), (8150, 8155), (8160, 8172), (8178, 8180), (8182, 8188), (8305, 8305),
  (8319, 8319), (8336, 8348), (8450, 8450), (8455, 8455), (8458, 8467), (8469, 8469),
  (8473, 8477), (8484, 8484), (8486, 8486), (8488, 8488), (8490, 8493), (8495, 8500),
  (8505, 8505), (8508, 8511), (8517, 8521), (8526, 8526), (8544, 8575), (8579, 8580),
  (9398, 9449), (11264, 11492), (11499, 11502), (11506, 11507), (11520, 11557), (11559, 11559),
  (11565, 11565), (42560, 42605), (42624, 42653), (42786, 42887), (42891, 42894),
  (42896, 42954), (42960, 42961), (42963, 42963), (42965, 42969), (42997, 42998),
  (43000, 43002), (43824, 43866), (43868, 43880), (43888, 43967), (64256, 64262),
  (64275, 64279), (65313, 65338), (65345, 65370), (66560, 66639), (66736, 66771),
  (66776, 66811), (66928, 66938), (66940, 66954), (66956, 66962), (66964, 66965),
  (66967, 66977), (66979, 66993), (66995, 67001), (67003, 67004), (67456, 67456),
  (67459, 67461), (67463, 67504), (67506, 67514), (68736, 68786), (68800, 68850),
  (71840, 71903), (93760, 93823), (119808, 119892), (119894, 119964), (119966, 119967),
  (119970, 119970), (119973, 119974), (119977, 119980), (119982, 119993), (119995, 119995),
  (119997, 120003), (120005, 120069), (120071, 120074), (120077, 120084), (120086, 120092),
  (120094, 120121), (120123, 120126), (120128, 120132), (120134, 120134), (120138, 120144),
  (120146, 120485), (120488, 120512), (120514, 120538), (120540, 120570), (120572, 120596),
  (120598, 120628), (120630, 120654), (120656, 120686), (120688, 120712), (120714, 120744),
  (120746, 120770), (120772, 120779), (122624, 122633), (122635, 122654), (125184, 125251),
  (127280, 127305), (127312, 127337), (127344, 127369)]

/-- The code points with the property Case_Ignorable (version 14.0), in sorted ranges. -/
def caseIgnorableRanges : List (Nat × Nat) := [
  (39, 39), (46, 46), (58, 58), (94, 94), (96, 96), (168, 168), (173, 173), (175, 175),
  (180, 180), (183, 184), (688, 879), (884, 885), (890, 890), (900, 901), (903, 903),
  (1155, 1161), (1369, 1369), (1375, 1375), (1425, 1469), (1471, 1471), (1473, 1474),
  (1476, 1477), (1479, 1479), (1524, 1524), (1536, 1541), (1552, 1562), (1564, 1564),
  (1600, 1600), (1611, 1631), (1648, 1648), (1750, 1757), (1759, 1768), (1770, 1773),
  (1807, 1807), (1809, 1809), (1840, 1866), (1958, 1968), (2027, 2037), (2042, 2042),
  (2045, 2045), (2070, 2093), (2137, 2139), (2184, 2184), (2192, 2193), (2200, 2207),
  (2249, 2306), (2362, 2362), (2364, 2364), (2369, 2376), (2381, 2381), (2385, 2391),
  (2402, 2403), (2417, 2417), (2433, 2433), (2492, 2492), (2497, 2500), (2509, 2509),
  (2530, 2531), (2558, 2558), (2561, 2562), (2620, 2620), (2625, 2626), (2631, 2632),
  (2635, 2637), (2641, 2641), (2672, 2673), (2677, 2677), (2689, 2690), (2748, 2748),
  (2753, 2757), (2759, 2760), (2765, 2765), (2786, 2787), (2810, 2815), (2817, 2817),
  (2876, 2876), (2879, 2879), (2881, 2884), (2893, 2893), (2901, 2902), (2914, 2915),
  (2946, 2946), (3008, 3008), (3021, 3021), (3072, 3072), (3076, 3076), (3132, 3132),
  (3134, 3136), (3142, 3144), (3146, 3149), (3157, 3158), (3170, 3171), (3201, 3201),
  (3260, 3260), (3263, 3263), (3270, 3270), (3276, 3277), (3298, 3299), (3328, 3329),
  (3387, 3388), (3393, 3396), (3405, 3405), (3426, 3427), (3457, 3457), (3530, 3530),
  (3538, 3540), (3542, 3542), (3633, 3633), (3636, 3642), (3654, 3662), (3761, 3761),
  (3764, 3772), (3782, 3782), (3784, 3789), (3864, 3865), (3893, 3893), (3895, 3895),
  (3897, 3897), (3953, 3966), (3968, 3972), (3974, 3975), (3981, 3991), (3993, 4028),
  (4038, 4038), (4141, 4144), (4146, 4151), (4153, 4154), (4157, 4158), (4184, 4185),
  (4190, 4192), (4209, 4212), (4226, 4226), (4229, 4230), (4237, 4237), (4253, 4253),
  (4348, 4348), (4957, 4959), (5906, 5908), (5938, 5939), (5970, 5971), (6002, 6003),
  (6068, 6069), (6071, 6077), (6086, 6086), (6089, 6099), (6103, 6103), (6109, 6109),
  (6155, 6159), (6211, 6211), (6277, 6278), (6313, 6313), (6432, 6434), (6439, 6440),
  (6450, 6450), (6457, 6459), (6679, 6680), (6683, 6683), (6742, 6742), (6744, 6750),
  (6752, 6752), (6754, 6754), (6757, 6764), (6771, 6780), (6783, 6783), (6823, 6823),
  (6832, 6862), (6912, 6915), (6964, 6964), (6966, 6970), (6972, 6972), (6978, 6978),
  (7019, 7027), (7040, 7041), (7074, 7077), (7080, 7081), (7083, 7085), (7142, 7142),
  (7144, 7145), (7149, 7149), (7151, 7153), (7212, 7219), (7222, 7223), (7288, 7293),
  (7376, 7378), (7380, 7392), (7394, 7400), (7405, 7405), (7412, 7412), (7416, 7417),
  (7468, 7530), (7544, 7544), (7579, 7679), (8125, 8125), (8127, 8129), (8141, 8143),
  (8157, 8159), (8173, 8175), (8189, 8190), (8203, 8207), (8216, 8217), (8228, 8228),
  (8231, 8231), (8234, 8238), (8288, 8292), (8294, 8303), (8305, 8305), (8319, 8319),
  (8336, 8348), (8400, 8432), (11388, 11389), (11503, 11505), (11631, 11631), (11647, 11647),
  (11744, 11775), (11823, 11823), (12293, 12293), (12330, 12333), (12337, 12341),
  (12347, 12347), (12441, 12446), (12540, 12542), (40981, 40981), (42232, 42237),
  (42508, 42508), (42607, 42610), (42612, 42621), (42623, 42623), (42652, 42655),
  (42736, 42737), (42752, 42785), (42864, 42864), (42888, 42890), (42994, 42996),
  (43000, 43001), (43010, 43010), (43014, 43014), (43019, 43019), (43045, 43046),
  (43052, 43052), (43204, 43205), (43232, 43249), (43263, 43263), (43302, 43309),
  (43335, 43345), (43392, 43394), (43443, 43443), (43446, 43449), (43452, 43453),
  (43471, 43471), (43493, 43494), (43561, 43566), (43569, 43570), (43573, 43574),
  (43587, 43587), (43596, 43596), (43632, 43632), (43644, 43644), (43696, 43696),
  (43698, 43700), (43703, 43704), (43710, 43711), (43713, 43713), (43741, 43741),
  (43756, 43757), (43763, 43764), (43766, 43766), (43867, 43871), (43881, 43883),
  (44005, 44005), (44008, 44008), (44013, 44013), (64286, 64286), (64434, 64450),
  (65024, 65039), (65043, 65043), (65056, 65071), (65106, 65106), (65109, 65109),
  (65279, 65279), (65287, 65287), (65294, 65294), (65306, 65306), (65342, 65342),
  (65344, 65344), (65392, 65392), (65438, 65439), (65507, 65507), (65529, 65531),
  (66045, 66045), (66272, 66272), (66422, 66426), (67456, 67461), (67463, 67504),
  (67506, 67514), (68097, 68099), (68101, 68102), (68108, 68111), (68152, 68154),
  (68159, 68159), (68325, 68326), (68900, 68903), (69291, 69292), (69446, 69456),
  (69506, 69509), (69633, 69633), (69688, 69702), (69744, 69744), (69747, 69748),
  (69759, 69761), (69811, 69814), (69817, 69818), (69821, 69821), (69826, 69826),
  (69837, 69837), (69888, 69890), (69927, 69931), (69933, 69940), (70003, 70003),
  (70016, 70017), (70070, 70078), (70089, 70092), (70095, 70095), (70191, 70193),
  (70196, 70196), (70198, 70199), (70206, 70206), (70367, 70367), (70371, 70378),
  (70400, 70401), (70459, 70460), (70464, 70464), (70502, 70508), (70512, 70516),
  (70712, 70719), (70722, 70724), (70726, 70726), (70750, 70750), (70835, 70840),
  (70842, 70842), (70847, 70848), (70850, 70851), (71090, 71093), (71100, 71101),
  (71103, 71104), (71132, 71133), (71219, 71226), (71229, 71229), (71231, 71232),
  (71339, 71339), (71341, 71341), (71344, 71349), (71351, 71351), (71453, 71455),
  (71458, 71461), (71463, 71467), (71727, 71735), (71737, 71738), (71995, 71996),
  (71998, 71998), (72003, 72003), (72148, 72151), (72154, 72155), (72160, 72160),
  (72193, 72202), (72243, 72248), (72251, 72254), (72263, 72263), (72273, 72278),
  (72281, 72283), (72330, 72342), (72344, 72345), (72752, 72758), (72760, 72765),
  (72767, 72767), (72850, 72871), (72874, 72880), (72882, 72883), (72885, 72886),
  (73009, 73014), (73018, 73018), (73020, 73021), (73023, 73029), (73031, 73031),
  (73104, 73105), (73109, 73109), (73111, 73111), (73459, 73460), (78896, 78904),
  (92912, 92916), (92976, 92982), (92992, 92995), (94031, 94031), (94095, 94111),
  (94176, 94177), (94179, 94180), (110576, 110579), (110581, 110587), (110589, 110590),
  (113821, 113822), (113824, 113827), (118528, 118573), (118576, 118598), (119143, 119145),
  (119155, 119170), (119173, 119179), (119210, 119213), (119362, 119364), (121344, 121398),
  (121403, 121452), (121461, 121461), (121476, 121476), (121499, 121503), (121505, 121519),
  (122880, 122886), (122888, 122904), (122907, 122913), (122915, 122916), (122918, 122922),
  (123184, 123197), (123566, 123566), (123628, 123631), (125136, 125142), (125252, 125259),
  (127995, 127999), (917505, 917505), (917536, 917631), (917760, 917999)]

/-- Membership in a sorted list of ranges. -/
def inRanges (n : Nat) : List (Nat × Nat) → Bool
  | [] => false
  | (first, last) :: rest =>
    if n < first then false
    else if n ≤ last then true
    else inRanges n rest

/-- The property Cased: the code point is a lowercase, uppercase or titlecase letter. -/
def isCased (c : Char) : Bool := inRanges c.toNat casedRanges

/-- The property Case_Ignorable. -/
def isCaseIgnorable (c : Char) : Bool := inRanges c.toNat caseIgnorableRanges

/-- The `delta` of the run of `lowerMappings` that holds the code point `n`, if one does. -/
def lookupLower (n : Nat) : List (Nat × Nat × Nat × Int) → Option Int
  | [] => none
  | (first, last, stride, delta) :: rest =>
    if n < first then none
    else if n ≤ last ∧ (n - first) % stride = 0 then some delta
    else lookupLower n rest

/-- The simple lowercase mapping of one character; a character without a mapping is kept. -/
def simpleLower (c : Char) : Char :=
  match lookupLower c.toNat lowerMappings with
  | some delta => Char.ofNat (Int.toNat (c.toNat + delta))
  | none => c

/-- Whether the first character that is not case-ignorable is cased: the test the
Final_Sigma condition makes on the text before (read backwards) and after a sigma. -/
def nextIsCased : List Char → Bool
  | [] => false
  | c :: rest => if isCaseIgnorable c then nextIsCased rest else isCased c

/-- The lower-casing scan; `before` holds the characters already read, the last one first.
A capital sigma `U+03A3` becomes the final sigma `U+03C2` when a cased letter precedes it and
none follows it (SpecialCasing, Final_Sigma), else the sigma `U+03C3`; `U+0130` becomes
`U+0069 U+0307`; any other character takes its simple mapping. -/
def lowerScan (before : List Char) : List Char → List Char
  | [] => []
  | c :: rest =>
    (if c.toNat = 0x3A3 then
        (if nextIsCased before && !nextIsCased rest then [Char.ofNat 0x3C2]
          else [Char.ofNat 0x3C3])
      else if c.toNat = 0x130 then [Char.ofNat 0x69, Char.ofNat 0x307]
      else [simpleLower c])
      ++ lowerScan (c :: before) rest

/-- The method `String.prototype.toLowerCase`: the Unicode default case conversion, with the
locale-insensitive mappings of UnicodeData.txt and SpecialCasing.txt. -/
def toLowerCase (s : List Char) : List Char := lowerScan [] s

/-- The scan behind `.replace(/\s+/g, '_')`: `inRun` tells that the previous character was
matched by the current `\s+` match, whose replacement has already been emitted. -/
def replaceScan : Bool → List Char → List Char
  | _, [] => []
  | inRun, c :: cs =>
    if isWhiteSpace c then
      if inRun then replaceScan true cs else '_' :: replaceScan true cs
    else c :: replaceScan false cs

/-- The call `s.replace(/\s+/g, '_')`. -/
def replaceWhitespace (s : List Char) : List Char := replaceScan false s

/-- The template literal of line 20 applied to the string `loc.toString()`:
`weather_` followed by the lower-cased string with its whitespace replaced. -/
def normalizeKey (s : String) : String :=
  "weather_" ++ String.mk (replaceWhitespace (toLowerCase s.data))

/-- The callback of `locations.map` on line 20; the error is the TypeError of
`loc.toString()`. -/
def cacheKey (loc : JSVal) : Except String String :=
  match loc.toStringMethod with
  | .error e => .error e
  | .ok s => .ok (normalizeKey s)

/-- The array `cacheKeys`: `locations.map` stops at the first element that throws. -/
def cacheKeys : List JSVal → Except String (List String)
  | [] => .ok []
  | loc :: rest =>
    match cacheKey loc with
    | .error e => .error e
    | .ok k =>
      match cacheKeys rest with
      | .error e => .error e
      | .ok ks => .ok (k :: ks)

/-- The maximal runs of a string: it is cut wherever a whitespace character meets one that
is not. -/
def splitRuns : List Char → List (List Char)
  | [] => []
  | c :: cs =>
    match splitRuns cs with
    | [] => [[c]]
    | [] :: runs => [c] :: runs
    | (d :: run) :: runs =>
      if isWhiteSpace c = isWhiteSpace d then (c :: d :: run) :: runs
      else [c] :: (d :: run) :: runs

/-- A run of whitespace becomes one underscore, any other run is kept. -/
def collapseRun : List Char → List Char
  | [] => []
  | c :: run => if isWhiteSpace c then ['_'] else c :: run

/-- The spec's wording of the replacement: each maximal run of whitespace characters becomes
one underscore, every other character is kept. -/
def collapseRuns (s : List Char) : List Char :=
  ((splitRuns s).map collapseRun).flatten

/-! ## `JSON.stringify` and `JSON.parse`

The two built-ins on `JSVal`: integer literals only (a literal with a fraction or an exponent
is outside the model and is refused), strings as sequences of Unicode scalar values (an escape
that denotes a surrogate code unit is refused). -/

/-- One lower-case hexadecimal digit. -/
def hexDigit (n : Nat) : Char :=
  if n < 10 then Char.ofNat (48 + n) else Char.ofNat (87 + n)

/-- The escape of one character by QuoteJSONString. -/
def escapeChar (c : Char) : List Char :=
  if c = '"' then ['\\', '"']
  else if c = '\\' then ['\\', '\\']
  else if c = '\x08' then ['\\', 'b']
  else if c = '\x0c' then ['\\', 'f']
  else if c = '\n' then ['\\', 'n']
  else if c = '\r' then ['\\', 'r']
  else if c = '\t' then ['\\', 't']
  else if c.toNat < 0x20 then
    ['\\', 'u', '0', '0', hexDigit (c.toNat / 16), hexDigit (c.toNat % 16)]
  else [c]

/-- The escaped characters of a string, without the quotes. -/
def escapeChars : List Char → List Char
  | [] => []
  | c :: cs => escapeChar c ++ escapeChars cs

/-- QuoteJSONString: the string between double quotes, escaped. -/
def quoteJSONString (s : String) : List Char :=
  '"' :: (escapeChars s.data ++ ['"'])

mutual
/-- SerializeJSONProperty without indentation; `none` is the result `undefined`. -/
def serialize : JSVal → Option (List Char)
  | .undefined => none
  | .null => some ['n', 'u', 'l', 'l']
  | .bool b => some (if b then ['t', 'r', 'u', 'e'] else ['f', 'a', 'l', 's', 'e'])
  | .num n => some (toString n).data
  | .str s => some (quoteJSONString s)
  | .arr items => some ('[' :: (List.intercalate [','] (serializeElements items) ++ [']']))
  | .obj fields => some ('{' :: (List.intercalate [','] (serializeMembers fields) ++ ['}']))
/-- The elements of an array: `undefined` is written `null`. -/
def serializeElements : List JSVal → List (List Char)
  | [] => []
  | v :: rest =>
    (match serialize v with
      | none => ['n', 'u', 'l', 'l']
      | some t => t) :: serializeElements rest
/-- The members of an object: a property whose value is `undefined` is left out. -/
def serializeMembers : List (String × JSVal) → List (List Char)
  | [] => []
  | (k, v) :: rest =>
    match serialize v with
    | none => serializeMembers rest
    | some t => (quoteJSONString k ++ ':' :: t) :: serializeMembers rest
end

/-- The call `JSON.stringify(value)`: a string, or `undefined`. -/
def JSON.stringify (value : JSVal) : JSVal :=
  match serialize value with
  | none => .undefined
  | some t => .str (String.mk t)

/-- JSON whitespace is skipped. -/
def skipWs : List Char → List Char
  | [] => []
  | c :: cs => if c = ' ' ∨ c = '\t' ∨ c = '\n' ∨ c = '\r' then skipWs cs else c :: cs

/-- The value of a hexadecimal digit of either case. -/
def hexVal (c : Char) : Option Nat :=
  if 48 ≤ c.toNat ∧ c.toNat ≤ 57 then some (c.toNat - 48)
  else if 97 ≤ c.toNat ∧ c.toNat ≤ 102 then some (c.toNat - 87)
  else if 65 ≤ c.toNat ∧ c.toNat ≤ 70 then some (c.toNat - 55)
  else none

/-- The code unit of the escape `\uabcd`. -/
def hex4 (a b c d : Char) : Option Nat :=
  match hexVal a, hexVal b, hexVal c, hexVal d with
  | some x, some y, some z, some w => some (((x * 16 + y) * 16 + z) * 16 + w)
  | _, _, _, _ => none

/-- Puts a character in front of a parsed string. -/
def consChar (c : Char) : Option (List Char × List Char) → Option (List Char × List Char)
  | none => none
  | some (s, rest) => some (c :: s, rest)

/-- A JSON string after its opening quote: the characters up to the closing quote and the
rest of the input. A raw control character and an unknown escape are errors. -/
def parseStringBody : List Char → Option (List Char × List Char)
  | [] => none
  | c :: rest =>
    if c = '"' then some ([], rest)
    else if c = '\\' then
      match rest with
      | [] => none
      | e :: rest1 =>
        if e = '"' then consChar '"' (parseStringBody rest1)
        else if e = '\\' then consChar '\\' (parseStringBody rest1)
        else if e = '/' then consChar '/' (parseStringBody rest1)
        else if e = 'b' then consChar '\x08' (parseStringBody rest1)
        else if e = 'f' then consChar '\x0c' (parseStringBody rest1)
        else if e = 'n' then consChar '\n' (parseStringBody rest1)
        else if e = 'r' then consChar '\r' (parseStringBody rest1)
        else if e = 't' then consChar '\t' (parseStringBody rest1)
        else if e = 'u' then
          match rest1 with
          | a :: b :: c1 :: d :: rest2 =>
            match hex4 a b c1 d with
            | none => none
            | some n =>
              if 0xD800 ≤ n ∧ n ≤ 0xDFFF then none
              else consChar (Char.ofNat n) (parseStringBody rest2)
          | _ => none
        else none
    else if c.toNat < 0x20 then none
    else consChar c (parseStringBody rest)

/-- A run of decimal digits, accumulated onto `acc`. -/
def parseDigits (acc : Nat) : List Char → Nat × List Char
  | [] => (acc, [])
  | c :: cs =>
    if 48 ≤ c.toNat ∧ c.toNat ≤ 57 then parseDigits (acc * 10 + (c.toNat - 48)) cs
    else (acc, c :: cs)

/-- The end of an integer literal: a fraction or an exponent is refused. -/
def finishNumber (negative : Bool) (n : Nat) (rest : List Char) : Option (JSVal × List Char) :=
  match rest with
  | [] => some (.num (if negative then -(n : Int) else (n : Int)), [])
  | c :: _ =>
    if c = '.' ∨ c = 'e' ∨ c = 'E' then none
    else some (.num (if negative then -(n : Int) else (n : Int)), rest)

/-- The digits of a number literal after the optional minus sign: `0`, or a digit from 1 to 9
followed by digits. -/
def parseUnsigned (negative : Bool) : List Char → Option (JSVal × List Char)
  | [] => none
  | d :: rest =>
    if d = '0' then finishNumber negative 0 rest
    else if 49 ≤ d.toNat ∧ d.toNat ≤ 57 then
      finishNumber negative (parseDigits (d.toNat - 48) rest).1 (parseDigits (d.toNat - 48) rest).2
    else none

/-- A number literal. -/
def parseNumber : List Char → Option (JSVal × List Char)
  | [] => none
  | c :: rest => if c = '-' then parseUnsigned true rest else parseUnsigned false (c :: rest)

/-- The assignment `obj[k] = v` while an object is built: a repeated name keeps its first
position and takes the last value. -/
def setField (k : String) (v : JSVal) : List (String × JSVal) → List (String × JSVal)
  | [] => [(k, v)]
  | (k1, v1) :: rest => if k1 = k then (k, v) :: rest else (k1, v1) :: setField k v rest

/-- The object whose members were read in this order. -/
def buildObject (members : List (String × JSVal)) : JSVal :=
  .obj (members.foldl (fun acc kv => setField kv.1 kv.2 acc) [])

mutual
/-- A JSON value, with leading whitespace. Each nested call uses one unit of fuel. -/
def parseValue : Nat → List Char → Option (JSVal × List Char)
  | 0, _ => none
  | fuel + 1, cs =>
    match skipWs cs with
    | [] => none
    | c :: rest =>
      if c = '{' then
        match skipWs rest with
        | [] => none
        | c1 :: rest1 =>
          if c1 = '}' then some (.obj [], rest1)
          else
            match parseMembers fuel (c1 :: rest1) with
            | none => none
            | some (members, rest2) => some (buildObject members, rest2)
      else if c = '[' then
        match skipWs rest with
        | [] => none
        | c1 :: rest1 =>
          if c1 = ']' then some (.arr [], rest1)
          else
            match parseElements fuel (c1 :: rest1) with
            | none => none
            | some (items, rest2) => some (.arr items, rest2)
      else if c = '"' then
        match parseStringBody rest with
        | none => none
        | some (s, rest1) => some (.str (String.mk s), rest1)
      else if c = 't' then
        match rest with
        | 'r' :: 'u' :: 'e' :: rest1 => some (.bool true, rest1)
        | _ => none
      else if c = 'f' then
        match rest with
        | 'a' :: 'l' :: 's' :: 'e' :: rest1 => some (.bool false, rest1)
        | _ => none
      else if c = 'n' then
        match rest with
        | 'u' :: 'l' :: 'l' :: rest1 => some (.null, rest1)
        | _ => none
      else parseNumber (c :: rest)
/-- The elements of a non-empty array up to the closing bracket. -/
def parseElements : Nat → List Char → Option (List JSVal × List Char)
  | 0, _ => none
  | fuel + 1, cs =>
    match parseValue fuel cs with
    | none => none
    | some (v, rest) =>
      match skipWs rest with
      | [] => none
      | c :: rest1 =>
        if c = ',' then
          match parseElements fuel rest1 with
          | none => none
          | some (vs, rest2) => some (v :: vs, rest2)
        else if c = ']' then some ([v], rest1)
        else none
/-- The members of a non-empty object up to the closing brace, in the order read. -/
def parseMembers : Nat → List Char → Option (List (String × JSVal) × List Char)
  | 0, _ => none
  | fuel + 1, cs =>
    match skipWs cs with
    | [] => none
    | q :: rest =>
      if q = '"' then
        match parseStringBody rest with
        | none => none
        | some (k, rest1) =>
          match skipWs rest1 with
          | [] => none
          | colon :: rest2 =>
            if colon = ':' then
              match parseValue fuel rest2 with
              | none => none
              | some (v, rest3) =>
                match skipWs rest3 with
                | [] => none
                | c :: rest4 =>
                  if c = ',' then
                    match parseMembers fuel rest4 with
                    | none => none
                    | some (ms, rest5) => some ((String.mk k, v) :: ms, rest5)
                  else if c = '}' then some ([(String.mk k, v)], rest4)
                  else none
            else none
      else none
end

/-- The call `JSON.parse(text)`; `none` is the SyntaxError. Every two nested calls of the
parser consume a character, so this fuel is not exhausted: more fuel gives the same result
(`parseValue_fuel_enough`). -/
def JSON.parse (text : String) : Option JSVal :=
  match parseValue (2 * text.length + 2) text.data with
  | none => none
  | some (v, rest) =>
    match skipWs rest with
    | [] => some v
    | _ :: _ => none

/-! ## Upstream fetcher (`src/services/weatherService.js`) -/

/-- How `await axios.get(apiUrl)` ends: a response with a success status resolves, any other
response rejects with `error.response` set, and a request without a response rejects with
`error.response` undefined. -/
inductive AxiosResult where
  | response (status : Nat) (data : JSVal) : AxiosResult
  | errorResponse (status : Nat) (data : JSVal) : AxiosResult
  | noResponse (message : String) : AxiosResult
  deriving DecidableEq

/-- What the `catch (error)` clause of `getWeatherByCity` reads of the thrown value:
`error.message`, and `error.response.status` when `error.response` is set. -/
structure Thrown where
  message : String
  responseStatus : Option Nat
  deriving DecidableEq

/-- The `try` block of `getWeatherByCity` (lines 17 to 33); `loc` is the text of `location`
in a template literal. -/
def tryBlock (result : AxiosResult) (location : JSVal) (loc : String) : Except Thrown JSVal :=
  match result with
  | .noResponse message => .error ⟨message, none⟩
  | .errorResponse status _ =>
    .error ⟨"Request failed with status code " ++ toString status, some status⟩
  | .response _ data =>
    if data.truthy && (data.get "currentConditions").truthy then
      match ((data.get "currentConditions").get "temp").toStr with
      | .error e => .error ⟨e, none⟩
      | .ok temp =>
        match ((data.get "currentConditions").get "humidity").toStr with
        | .error e => .error ⟨e, none⟩
        | .ok humidity =>
          match ((data.get "currentConditions").get "windspeed").toStr with
          | .error e => .error ⟨e, none⟩
          | .ok windspeed =>
            .ok (.obj [
              ("location", (data.get "resolvedAddress").or location),
              ("temperature", .str (temp ++ "°C")),
              ("description", (data.get "currentConditions").get "conditions"),
              ("humidity", .str (humidity ++ "%")),
              ("windSpeed", .str (windspeed ++ " km/h")),
              ("source", .str "Visual Crossing API")])
    else .error ⟨"No current weather conditions found for " ++ loc, none⟩

/-- The `catch (error)` clause of `getWeatherByCity` (lines 35 to 47): the message of the
Error it throws. -/
def catchBlock (error : Thrown) (loc : String) : String :=
  match error.responseStatus with
  | some status =>
    if status = 400 ∨ status = 404 then "Location not found or invalid: " ++ loc
    else "API error for " ++ loc ++ ": Status " ++ toString status
  | none => "Failed to fetch weather data for " ++ loc ++ " from external API"

/-- The function `getWeatherByCity(location)`: the snapshot the promise resolves to, or the
message of the Error it rejects with. `axiosGet location` is the outcome of the one
`axios.get` call made for `location`. -/
def getWeatherByCity (axiosGet : JSVal → AxiosResult) (location : JSVal) :
    Except String JSVal :=
  match location.toStr with
  | .error e => .error e
  | .ok loc =>
    match tryBlock (axiosGet location) location loc with
    | .ok snapshot => .ok snapshot
    | .error error => .error (catchBlock error loc)

/-- One entry of `Promise.allSettled`: `{status: 'fulfilled', value}` or
`{status: 'rejected', reason}`, the reason being the Error with its `message`. -/
def settled : Except String JSVal → JSVal
  | .ok value => .obj [("status", .str "fulfilled"), ("value", value)]
  | .error message =>
    .obj [("status", .str "rejected"), ("reason", .obj [("message", .str message)])]

/-- The function `getWeatherForLocations(locations)`. -/
def getWeatherForLocations (axiosGet : JSVal → AxiosResult) (locations : List JSVal) :
    List JSVal :=
  locations.map (fun location => settled (getWeatherByCity axiosGet location))

/-! ## Batch resolver (`src/routes/weather.js`) -/

/-- The constant `CACHE_EXPIRATION`: `process.env.CACHE_EXPIRATION_SECONDS || 3600`. -/
def CACHE_EXPIRATION (envSeconds : Option String) : JSVal :=
  (match envSeconds with
    | some s => JSVal.str s
    | none => JSVal.undefined).or (.num 3600)

/-- The arguments `(err, data)` a `cache.get` callback is called with. -/
inductive CacheGetResult where
  | error : CacheGetResult
  | data (body : String) : CacheGetResult
  | absent : CacheGetResult
  deriving DecidableEq

/-- An entry of `locationsToFetch`. -/
structure PendingFetch where
  originalIndex : Nat
  location : JSVal
  cacheKey : String
  deriving DecidableEq

/-- A call `cache.set(item.cacheKey, dataToCache, CACHE_EXPIRATION, ...)`; `originalIndex` is
that of the `item` the call is made for. -/
structure CacheSetCall where
  originalIndex : Nat
  key : String
  value : JSVal
  ttl : JSVal
  deriving DecidableEq

/-- What the client gets: a JSON body with a status, no answer from this handler because
it threw before the `try` block, or no answer because `Promise.all(cachePromises)` never
settles. -/
inductive Response where
  | json (status : Nat) (body : JSVal) : Response
  | threw (message : String) : Response
  | pending : Response
  deriving DecidableEq

/-- One run of the handler: the response and the calls made to the collaborators. -/
structure Outcome where
  response : Response
  cacheGets : List String
  serviceCalls : List (List JSVal)
  cacheSets : List CacheSetCall
  deriving DecidableEq

/-- The array `results`, a slot per index, `undefined` where nothing was stored. -/
abbrev Results := Nat → JSVal

/-- The assignment `results[index] = value`. -/
def Results.set (results : Results) (index : Nat) (value : JSVal) : Results :=
  fun j => if j = index then value else results j

/-- The variables the `cache.get` callbacks write. -/
structure LookupState where
  results : Results
  locationsToFetch : List PendingFetch

/-- The statement `locationsToFetch.push({ originalIndex: index, location: locations[index],
cacheKey: key })`. -/
def pushPending (locations : List JSVal) (key : String) (index : Nat) (st : LookupState) :
    LookupState :=
  { st with locationsToFetch :=
      st.locationsToFetch ++ [⟨index, locations.getD index .undefined, key⟩] }

/-- The callback of `cache.get(key, ...)` for `index` (lines 26 to 48). -/
def cacheCallback (locations : List JSVal) (key : String) (index : Nat)
    (got : CacheGetResult) (st : LookupState) : LookupState :=
  match got with
  | .error => pushPending locations key index st
  | .data body =>
    if (JSVal.str body).truthy then
      match JSON.parse body with
      | some parsed => { st with results := st.results.set index parsed }
      | none => pushPending locations key index st
    else pushPending locations key index st
  | .absent => pushPending locations key index st

/-- The cache phase: the callbacks run in the order `order` in which the lookups complete;
`cache index key` is what the lookup number `index`, made with `key`, calls back with. -/
def cachePhase (cache : Nat → String → CacheGetResult) (locations : List JSVal)
    (keys : List String) (order : List Nat) : LookupState :=
  order.foldl
    (fun st index =>
      if index < keys.length then
        cacheCallback locations (keys.getD index "") index (cache index (keys.getD index "")) st
      else st)
    ⟨fun _ => .undefined, []⟩

/-- The variables the loop over `fetchedResults` writes. -/
structure FetchState where
  results : Results
  cacheSets : List CacheSetCall

/-- The body of `fetchedResults.forEach((result, i) => ...)` for `item = locationsToFetch[i]`
(lines 65 to 87). -/
def processFetched (ttl : JSVal) (st : FetchState) (item : PendingFetch) (result : JSVal) :
    FetchState :=
  if result.truthy && (result.get "status").isStr "fulfilled" && (result.get "value").truthy then
    { results := st.results.set item.originalIndex result
      cacheSets := st.cacheSets ++
        [⟨item.originalIndex, item.cacheKey, JSON.stringify (result.get "value"), ttl⟩] }
  else if result.truthy && (result.get "status").isStr "rejected" then
    { results := (st.results.set item.originalIndex result).set item.originalIndex
        (.obj [("location", item.location),
               ("error", ((result.get "reason").get "message").or
                  (.str "Failed to fetch weather data"))])
      cacheSets := st.cacheSets }
  else
    { results := st.results.set item.originalIndex result
      cacheSets := st.cacheSets }

/-- The fetch and write-back phases (lines 57 to 91): the results, the calls of
`getWeatherForLocations` and the cache writes. -/
def fetchPhase (ttl : JSVal) (axiosGet : JSVal → AxiosResult) (st : LookupState) :
    FetchState × List (List JSVal) :=
  if st.locationsToFetch.length > 0 then
    (((st.locationsToFetch.zip
        (getWeatherForLocations axiosGet (st.locationsToFetch.map (fun item => item.location)))).foldl
        (fun fs pair => processFetched ttl fs pair.1 pair.2) ⟨st.results, []⟩),
      [st.locationsToFetch.map (fun item => item.location)])
  else (⟨st.results, []⟩, [])

/-- The callback of `locations.map((loc, index) => ...)` that builds `finalResults`
(lines 95 to 108). -/
def finalResult (results : Results) (loc : JSVal) (index : Nat) : JSVal :=
  if (results index).truthy then
    if ((results index).get "status").isStr "fulfilled" then (results index).get "value"
    else if ((results index).get "status").isStr "rejected" then
      .obj [("location", loc),
            ("error", (((results index).get "reason").get "message").or
              (.str "Failed to fetch weather data"))]
    else results index
  else .obj [("location", loc), ("error", .str "Data not found or processing error")]

/-- The method `Array.prototype.map` with a callback that reads the index. -/
def mapWithIndex {β : Type} (f : JSVal → Nat → β) : Nat → List JSVal → List β
  | _, [] => []
  | i, x :: xs => f x i :: mapWithIndex f (i + 1) xs

/-- The body of the 400 response. -/
def invalidBatch : JSVal :=
  .obj [("message", .str ("Please provide an array of 1 to 10 locations " ++
    "(city names or zip codes) in the request body under the \"locations\" key."))]

/-- The handler of `POST /weather` on `req.body.locations`. `envSeconds` is the environment
variable `CACHE_EXPIRATION_SECONDS`, `cache` and `axiosGet` are the outcomes of the calls to
the collaborators and `order` is the order in which the `cache.get` callbacks fire. -/
def postWeather (envSeconds : Option String) (cache : Nat → String → CacheGetResult)
    (axiosGet : JSVal → AxiosResult) (order : List Nat) (locations : JSVal) : Outcome :=
  match locations with
  | .arr locs =>
    if locs.length = 0 ∨ locs.length > 10 then ⟨.json 400 invalidBatch, [], [], []⟩
    else
      match cacheKeys locs with
      | .error e => ⟨.threw e, [], [], []⟩
      | .ok keys =>
        if (List.range locs.length).all (fun index => decide (index ∈ order)) then
          ⟨.json 200 (.arr (mapWithIndex
              (finalResult
                (fetchPhase (CACHE_EXPIRATION envSeconds) axiosGet
                  (cachePhase cache locs keys order)).1.results) 0 locs)),
            keys,
            (fetchPhase (CACHE_EXPIRATION envSeconds) axiosGet
              (cachePhase cache locs keys order)).2,
            (fetchPhase (CACHE_EXPIRATION envSeconds) axiosGet
              (cachePhase cache locs keys order)).1.cacheSets⟩
        else ⟨.pending, keys, [], []⟩
  | _ => ⟨.json 400 invalidBatch, [], [], []⟩

/-! ## The resolution of one index, as the properties below state it -/

/-- The value a `cache.get` callback stores: the parsed body of a hit that is truthy and
parses. `none` for an error, a miss, an empty body and a body that does not parse. -/
def hitValue : CacheGetResult → Option JSVal
  | .data body => if (JSVal.str body).truthy then JSON.parse body else none
  | _ => none

/-- The value the lookup number `index` stores, if it stores one. -/
def hitAt (cache : Nat → String → CacheGetResult) (keys : List String) (index : Nat) :
    Option JSVal :=
  if index < keys.length then hitValue (cache index (keys.getD index "")) else none

/-- The entry of `locationsToFetch` for `index`, when its lookup does not give a value. -/
def pendingItem (cache : Nat → String → CacheGetResult) (locations : List JSVal)
    (keys : List String) (index : Nat) : Option PendingFetch :=
  if index < keys.length then
    match hitAt cache keys index with
    | some _ => none
    | none => some ⟨index, locations.getD index .undefined, keys.getD index ""⟩
  else none

/-- The entries of `locationsToFetch` when the lookups complete in the order `order`. -/
def pendingItems (cache : Nat → String → CacheGetResult) (locations : List JSVal)
    (keys : List String) (order : List Nat) : List PendingFetch :=
  order.filterMap (pendingItem cache locations keys)

/-- The write-back of one pending item: a call when its fetch succeeded. -/
def writeBack (ttl : JSVal) (axiosGet : JSVal → AxiosResult) (item : PendingFetch) :
    Option CacheSetCall :=
  match getWeatherByCity axiosGet item.location with
  | .ok snapshot => some ⟨item.originalIndex, item.cacheKey, JSON.stringify snapshot, ttl⟩
  | .error _ => none

/-- The failure record `{location, error}`. -/
def failureRecord (location : JSVal) (message : String) : JSVal :=
  .obj [("location", location), ("error", .str message)]

/-- The outcome of a fetch as the response shows it: the snapshot, or the failure record
with the message of the fetch. -/
def fetchOutcome (axiosGet : JSVal → AxiosResult) (location : JSVal) : JSVal :=
  match getWeatherByCity axiosGet location with
  | .ok snapshot => snapshot
  | .error message => failureRecord location message

/-- The element of the response for one location, from the outcome of its own cache lookup
and of its own fetch. -/
def resolveOne (axiosGet : JSVal → AxiosResult) (location : JSVal) (got : CacheGetResult) :
    JSVal :=
  match hitValue got with
  | some parsed => finalResult (fun _ => parsed) location 0
  | none => fetchOutcome axiosGet location

/-- A batch of 1 to 10 non-empty strings. -/
def validBatch (names : List String) : Prop :=
  1 ≤ names.length ∧ names.length ≤ 10 ∧ ∀ s ∈ names, s ≠ ""

instance (names : List String) : Decidable (validBatch names) := by
  unfold validBatch; infer_instance

/-- What the loop over `fetchedResults` leaves in `results` for a pending item: the settled
entry of a fetch that succeeded, the failure record of one that failed. -/
def storedFor (axiosGet : JSVal → AxiosResult) (item : PendingFetch) : JSVal :=
  match getWeatherByCity axiosGet item.location with
  | .ok snapshot => settled (.ok snapshot)
  | .error message => failureRecord item.location message

/-- Two strings that differ only in the lengths of their whitespace runs: they are read in
step, a character against the same character, a non-empty run of whitespace against a
non-empty run of whitespace. -/
inductive SameUpToSpacing : List Char → List Char → Prop where
  | nil : SameUpToSpacing [] []
  | char (c : Char) (s t : List Char) :
      isWhiteSpace c = false → SameUpToSpacing s t → SameUpToSpacing (c :: s) (c :: t)
  | run (r1 r2 s t : List Char) :
      r1 ≠ [] → r2 ≠ [] → (∀ c ∈ r1, isWhiteSpace c = true) → (∀ c ∈ r2, isWhiteSpace c = true) →
      SameUpToSpacing s t → SameUpToSpacing (r1 ++ s) (r2 ++ t)

/-- Two strings that differ only in the case of their letters and in the lengths of their
whitespace runs: they are read in step, a character against one with the same simple
lowercase mapping, a non-empty run of whitespace against a non-empty run of whitespace. -/
inductive SameUpToCaseAndSpacing : List Char → List Char → Prop where
  | nil : SameUpToCaseAndSpacing [] []
  | char (c d : Char) (s t : List Char) :
      isWhiteSpace c = false → isWhiteSpace d = false → simpleLower c = simpleLower d →
      SameUpToCaseAndSpacing s t → SameUpToCaseAndSpacing (c :: s) (d :: t)
  | run (r1 r2 s t : List Char) :
      r1 ≠ [] → r2 ≠ [] → (∀ c ∈ r1, isWhiteSpace c = true) → (∀ c ∈ r2, isWhiteSpace c = true) →
      SameUpToCaseAndSpacing s t → SameUpToCaseAndSpacing (r1 ++ s) (r2 ++ t)

/-! ## Sample collaborators for the concrete runs -/

/-- A weather snapshot with the six fields `getWeatherByCity` gives it. -/
def snapshot (location temperature description humidity windSpeed source : String) : JSVal :=
  .obj [("location", .str location), ("temperature", .str temperature),
    ("description", .str description), ("humidity", .str humidity),
    ("windSpeed", .str windSpeed), ("source", .str source)]

/-- A provider payload with current conditions. -/
def sampleData : JSVal :=
  .obj [("resolvedAddress", .str "Valid City"),
    ("currentConditions", .obj [("temp", .num 21), ("conditions", .str "Clear"),
      ("humidity", .num 40), ("windspeed", .num 7)])]

/-- The snapshot `getWeatherByCity` makes of `sampleData`. -/
def sampleSnapshot : JSVal :=
  snapshot "Valid City" "21°C" "Clear" "40%" "7 km/h" "Visual Crossing API"

/-- A provider that knows every location but `badcity`. -/
def sampleUpstream : JSVal → AxiosResult :=
  fun location =>
    if location = .str "badcity" then .errorResponse 404 (.str "Bad API Request")
    else .response 200 sampleData

/-- A provider that is unreachable for every location but `validcity`. -/
def otherUpstream : JSVal → AxiosResult :=
  fun location =>
    if location = .str "validcity" then .response 200 sampleData
    else .noResponse "connect ECONNREFUSED"

/-- An empty cache. -/
def emptyCache : Nat → String → CacheGetResult := fun _ _ => .absent

/-- The cache `cache` with the outcome of the lookup number `i` replaced by `got`. -/
def cacheWith (cache : Nat → String → CacheGetResult) (i : Nat) (got : CacheGetResult) :
    Nat → String → CacheGetResult :=
  fun j key => if j = i then got else cache j key

/-- A location that is a string (the empty one included), a number or a boolean. -/
def isPrimitiveLocation : JSVal → Bool
  | .str _ => true
  | .num _ => true
  | .bool _ => true
  | _ => false

/-- A cache that holds the same body under every key. -/
def constantCache (body : String) : Nat → String → CacheGetResult := fun _ _ => .data body

/-- The text of an object member whose value is a string. -/
def memberText (kv : String × String) : List Char :=
  quoteJSONString kv.1 ++ ':' :: quoteJSONString kv.2

/-- The text of the members that follow the first one, each after its comma. -/
def moreMembers : List (String × String) → List Char
  | [] => []
  | kv :: rest => ',' :: (memberText kv ++ moreMembers rest)


/-! ## Lemmas on the cache phase -/

theorem cacheCallback_eq (locations : List JSVal) (key : String) (index : Nat)
    (got : CacheGetResult) (st : LookupState) :
    cacheCallback locations key index got st =
      match hitValue got with
      | some parsed => { st with results := st.results.set index parsed }
      | none => pushPending locations key index st := by
  cases got with
  | error => rfl
  | absent => rfl
  | data body =>
    simp only [cacheCallback, hitValue]
    cases (JSVal.str body).truthy with
    | true => rfl
    | false => rfl

/-- One step of the cache phase. -/
theorem lookupStep_eq (cache : Nat → String → CacheGetResult) (locations : List JSVal)
    (keys : List String) (st : LookupState) (index : Nat) :
    (if index < keys.length then
        cacheCallback locations (keys.getD index "") index (cache index (keys.getD index "")) st
      else st) =
      ⟨(match hitAt cache keys index with
          | some parsed => st.results.set index parsed
          | none => st.results),
        st.locationsToFetch ++ (pendingItem cache locations keys index).toList⟩ := by
  unfold pendingItem hitAt
  by_cases h : index < keys.length
  · simp only [h, if_true, cacheCallback_eq]
    cases hitValue (cache index (keys.getD index "")) <;> simp [pushPending]
  · simp [h]

theorem foldl_lookup_toFetch (cache : Nat → String → CacheGetResult) (locations : List JSVal)
    (keys : List String) (order : List Nat) (st : LookupState) :
    (order.foldl
      (fun st index =>
        if index < keys.length then
          cacheCallback locations (keys.getD index "") index
            (cache index (keys.getD index "")) st
        else st) st).locationsToFetch =
      st.locationsToFetch ++ order.filterMap (pendingItem cache locations keys) := by
  induction order generalizing st with
  | nil => simp
  | cons i rest ih =>
    rw [List.foldl_cons, ih, lookupStep_eq]
    cases h : pendingItem cache locations keys i <;> simp [List.filterMap_cons, h]

theorem foldl_lookup_results (cache : Nat → String → CacheGetResult) (locations : List JSVal)
    (keys : List String) (order : List Nat) (st : LookupState) (j : Nat) :
    (order.foldl
      (fun st index =>
        if index < keys.length then
          cacheCallback locations (keys.getD index "") index
            (cache index (keys.getD index "")) st
        else st) st).results j =
      match (if j ∈ order then hitAt cache keys j else none) with
      | some parsed => parsed
      | none => st.results j := by
  induction order generalizing st with
  | nil => simp
  | cons i rest ih =>
    rw [List.foldl_cons, ih, lookupStep_eq]
    by_cases hji : j = i
    · subst hji
      simp only [List.mem_cons, true_or, if_true]
      cases hv : hitAt cache keys j with
      | some v => by_cases hmem : j ∈ rest <;> simp [Results.set, hmem]
      | none => simp
    · have hij : ¬ i = j := fun h => hji h.symm
      by_cases hmem : j ∈ rest
      · simp only [hmem, List.mem_cons, or_true, if_true]
        cases hitAt cache keys j with
        | some v => rfl
        | none => cases hitAt cache keys i <;> simp [Results.set, hji]
      · simp only [hmem, List.mem_cons, hji, or_self, if_false]
        cases hitAt cache keys i <;> simp [Results.set, hji]

/-! ## Lemmas on the upstream fetcher -/

theorem append_ne_empty_left (a b : String) (h : a ≠ "") : a ++ b ≠ "" := by
  intro e
  apply h
  have hd := congrArg String.data e
  rw [String.data_append] at hd
  have ha : a.data = [] := (List.append_eq_nil.mp hd).1
  exact String.ext ha

theorem tryBlock_ok_truthy (result : AxiosResult) (location : JSVal) (loc : String)
    (v : JSVal) (h : tryBlock result location loc = .ok v) : v.truthy = true := by
  unfold tryBlock at h
  split at h
  · cases h
  · cases h
  · split at h
    · split at h
      · cases h
      · split at h
        · cases h
        · split at h
          · cases h
          · cases h
            rfl
    · cases h

theorem catchBlock_ne_empty (error : Thrown) (loc : String) : catchBlock error loc ≠ "" := by
  unfold catchBlock
  split
  · split
    · exact append_ne_empty_left _ _ (by decide)
    · simp only [String.append_assoc]
      exact append_ne_empty_left _ _ (by decide)
  · simp only [String.append_assoc]
    exact append_ne_empty_left _ _ (by decide)

theorem map_eq_error {α β : Type} (f : α → β) (x : Except String α) (e : String)
    (h : x.map f = .error e) : x = .error e := by
  cases x with
  | error e1 =>
    simp only [Except.map] at h
    cases h
    rfl
  | ok a => simp [Except.map] at h

mutual
theorem toStr_error : ∀ (v : JSVal) (e : String), v.toStr = .error e →
    e = "Cannot convert object to primitive value"
  | .undefined, e, h => by simp [JSVal.toStr] at h
  | .null, e, h => by simp [JSVal.toStr] at h
  | .bool _, e, h => by simp [JSVal.toStr] at h
  | .num _, e, h => by simp [JSVal.toStr] at h
  | .str _, e, h => by simp [JSVal.toStr] at h
  | .arr items, e, h => join_error items e (by simpa [JSVal.toStr] using h)
  | .obj fields, e, h => by
    simp only [JSVal.toStr] at h
    split at h
    · cases h; rfl
    · cases h
theorem join_error : ∀ (items : List JSVal) (e : String), JSVal.join items = .error e →
    e = "Cannot convert object to primitive value"
  | [], e, h => by simp [JSVal.join] at h
  | .undefined :: rest, e, h => by
    cases rest with
    | nil => simp [JSVal.join] at h
    | cons r rs =>
      simp only [JSVal.join] at h
      exact join_error (r :: rs) e (map_eq_error _ _ _ h)
  | .null :: rest, e, h => by
    cases rest with
    | nil => simp [JSVal.join] at h
    | cons r rs =>
      simp only [JSVal.join] at h
      exact join_error (r :: rs) e (map_eq_error _ _ _ h)
  | .bool b :: rest, e, h => by
    cases rest with
    | nil => simp [JSVal.join, JSVal.toStr] at h
    | cons r rs =>
      simp only [JSVal.join, JSVal.toStr] at h
      exact join_error (r :: rs) e (map_eq_error _ _ _ h)
  | .num n :: rest, e, h => by
    cases rest with
    | nil => simp [JSVal.join, JSVal.toStr] at h
    | cons r rs =>
      simp only [JSVal.join, JSVal.toStr] at h
      exact join_error (r :: rs) e (map_eq_error _ _ _ h)
  | .str s :: rest, e, h => by
    cases rest with
    | nil => simp [JSVal.join, JSVal.toStr] at h
    | cons r rs =>
      simp only [JSVal.join, JSVal.toStr] at h
      exact join_error (r :: rs) e (map_eq_error _ _ _ h)
  | .arr xs :: rest, e, h => by
    simp only [JSVal.join] at h
    cases hx : (JSVal.arr xs).toStr with
    | error e1 =>
      rw [hx] at h
      cases h
      exact toStr_error (.arr xs) e hx
    | ok s =>
      rw [hx] at h
      cases rest with
      | nil => simp at h
      | cons r rs =>
        exact join_error (r :: rs) e (map_eq_error _ _ _ h)
  | .obj fs :: rest, e, h => by
    simp only [JSVal.join] at h
    cases hx : (JSVal.obj fs).toStr with
    | error e1 =>
      rw [hx] at h
      cases h
      exact toStr_error (.obj fs) e hx
    | ok s =>
      rw [hx] at h
      cases rest with
      | nil => simp at h
      | cons r rs =>
        exact join_error (r :: rs) e (map_eq_error _ _ _ h)
end

theorem toStr_error_ne_empty (v : JSVal) (e : String) (h : v.toStr = .error e) : e ≠ "" := by
  rw [toStr_error v e h]
  decide

@[simp] theorem truthy_obj (fields : List (String × JSVal)) : (JSVal.obj fields).truthy = true :=
  rfl

theorem truthy_str (s : String) (h : s ≠ "") : (JSVal.str s).truthy = true := by
  simp [JSVal.truthy, h]

theorem getWeatherByCity_ok_truthy (axiosGet : JSVal → AxiosResult) (location v : JSVal)
    (h : getWeatherByCity axiosGet location = .ok v) : v.truthy = true := by
  unfold getWeatherByCity at h
  split at h
  · cases h
  · split at h
    · rename_i hs
      cases h
      exact tryBlock_ok_truthy _ _ _ _ hs
    · cases h

theorem getWeatherByCity_error_ne_empty (axiosGet : JSVal → AxiosResult) (location : JSVal)
    (m : String) (h : getWeatherByCity axiosGet location = .error m) : m ≠ "" := by
  unfold getWeatherByCity at h
  split at h
  · rename_i e he
    cases h
    exact toStr_error_ne_empty _ _ he
  · split at h
    · cases h
    · cases h
      exact catchBlock_ne_empty _ _

theorem set_set (results : Results) (i : Nat) (a b : JSVal) :
    (results.set i a).set i b = results.set i b := by
  funext j
  simp only [Results.set]
  split <;> rfl

theorem processFetched_settled (ttl : JSVal) (axiosGet : JSVal → AxiosResult)
    (fs : FetchState) (item : PendingFetch) :
    processFetched ttl fs item (settled (getWeatherByCity axiosGet item.location)) =
      ⟨fs.results.set item.originalIndex (storedFor axiosGet item),
        fs.cacheSets ++ (writeBack ttl axiosGet item).toList⟩ := by
  unfold storedFor writeBack
  cases h : getWeatherByCity axiosGet item.location with
  | ok v =>
    have hv := getWeatherByCity_ok_truthy _ _ _ h
    simp [processFetched, settled, JSVal.get, JSVal.isStr, hv, List.lookup]
  | error m =>
    have hm := getWeatherByCity_error_ne_empty _ _ _ h
    simp [processFetched, settled, JSVal.get, JSVal.isStr, List.lookup, set_set,
      JSVal.or, truthy_str m hm, failureRecord]

/-! ## Lemmas on the fetch and write-back phases -/

theorem fetch_fold_eq (ttl : JSVal) (axiosGet : JSVal → AxiosResult) (items : List PendingFetch)
    (fs : FetchState) :
    (items.zip (getWeatherForLocations axiosGet (items.map (fun item => item.location)))).foldl
        (fun fs pair => processFetched ttl fs pair.1 pair.2) fs =
      items.foldl
        (fun fs item =>
          ⟨fs.results.set item.originalIndex (storedFor axiosGet item),
            fs.cacheSets ++ (writeBack ttl axiosGet item).toList⟩) fs := by
  induction items generalizing fs with
  | nil => rfl
  | cons item rest ih =>
    simp only [getWeatherForLocations, List.map_cons, List.zip_cons_cons, List.foldl_cons]
    rw [processFetched_settled]
    exact ih _

theorem store_fold_cacheSets (ttl : JSVal) (axiosGet : JSVal → AxiosResult)
    (items : List PendingFetch) (fs : FetchState) :
    (items.foldl
        (fun fs item =>
          ⟨fs.results.set item.originalIndex (storedFor axiosGet item),
            fs.cacheSets ++ (writeBack ttl axiosGet item).toList⟩) fs).cacheSets =
      fs.cacheSets ++ items.filterMap (writeBack ttl axiosGet) := by
  induction items generalizing fs with
  | nil => simp
  | cons item rest ih =>
    rw [List.foldl_cons, ih]
    cases h : writeBack ttl axiosGet item <;> simp [List.filterMap_cons, h]

theorem store_fold_results_of_not_mem (ttl : JSVal) (axiosGet : JSVal → AxiosResult)
    (items : List PendingFetch) (fs : FetchState) (j : Nat)
    (hj : j ∉ items.map (fun item => item.originalIndex)) :
    (items.foldl
        (fun fs item =>
          ⟨fs.results.set item.originalIndex (storedFor axiosGet item),
            fs.cacheSets ++ (writeBack ttl axiosGet item).toList⟩) fs).results j =
      fs.results j := by
  induction items generalizing fs with
  | nil => rfl
  | cons item rest ih =>
    simp only [List.map_cons, List.mem_cons, not_or] at hj
    rw [List.foldl_cons, ih _ hj.2]
    simp [Results.set, hj.1]

theorem store_fold_results_of_mem (ttl : JSVal) (axiosGet : JSVal → AxiosResult)
    (items : List PendingFetch) (fs : FetchState) (item : PendingFetch)
    (hnodup : (items.map (fun item => item.originalIndex)).Nodup) (hmem : item ∈ items) :
    (items.foldl
        (fun fs item =>
          ⟨fs.results.set item.originalIndex (storedFor axiosGet item),
            fs.cacheSets ++ (writeBack ttl axiosGet item).toList⟩) fs).results
        item.originalIndex =
      storedFor axiosGet item := by
  induction items generalizing fs with
  | nil => cases hmem
  | cons x rest ih =>
    simp only [List.map_cons, List.nodup_cons] at hnodup
    rw [List.foldl_cons]
    rcases List.mem_cons.mp hmem with hx | hrest
    · subst hx
      rw [store_fold_results_of_not_mem _ _ _ _ _ hnodup.1]
      simp [Results.set]
    · exact ih _ hnodup.2 hrest

/-! ## Lemmas on `mapWithIndex` and `cacheKeys` -/

theorem mapWithIndex_length {β : Type} (f : JSVal → Nat → β) (k : Nat) (l : List JSVal) :
    (mapWithIndex f k l).length = l.length := by
  induction l generalizing k with
  | nil => rfl
  | cons x xs ih => simp [mapWithIndex, ih]

theorem mapWithIndex_getElem? {β : Type} (f : JSVal → Nat → β) (k : Nat) (l : List JSVal)
    (i : Nat) : (mapWithIndex f k l)[i]? = l[i]?.map (fun x => f x (k + i)) := by
  induction l generalizing k i with
  | nil => simp [mapWithIndex]
  | cons x xs ih =>
    cases i with
    | zero => simp [mapWithIndex]
    | succ i =>
      simp only [mapWithIndex, List.getElem?_cons_succ, ih]
      congr 1
      funext y
      congr 1
      omega

theorem mapWithIndex_congr {β : Type} (f g : JSVal → Nat → β) (k : Nat) (l : List JSVal)
    (h : ∀ i (hi : i < l.length), f (l.get ⟨i, hi⟩) (k + i) = g (l.get ⟨i, hi⟩) (k + i)) :
    mapWithIndex f k l = mapWithIndex g k l := by
  induction l generalizing k with
  | nil => rfl
  | cons x xs ih =>
    simp only [mapWithIndex]
    congr 1
    · exact h 0 (by simp)
    · apply ih
      intro i hi
      have := h (i + 1) (by simp; omega)
      simpa [Nat.add_assoc, Nat.add_comm 1 i] using this

theorem cacheKeys_length (locs : List JSVal) (keys : List String)
    (h : cacheKeys locs = .ok keys) : keys.length = locs.length := by
  induction locs generalizing keys with
  | nil =>
    simp only [cacheKeys] at h
    cases h
    rfl
  | cons x xs ih =>
    simp only [cacheKeys] at h
    split at h
    · cases h
    · split at h
      · cases h
      · rename_i ks hks
        cases h
        simp [ih ks hks]

theorem cacheKeys_getElem (locs : List JSVal) (keys : List String)
    (h : cacheKeys locs = .ok keys) (i : Nat) (hi : i < locs.length) :
    cacheKey (locs.get ⟨i, hi⟩) = .ok (keys.getD i "") := by
  induction locs generalizing keys i with
  | nil => simp at hi
  | cons x xs ih =>
    simp only [cacheKeys] at h
    split at h
    · cases h
    · rename_i k hk
      split at h
      · cases h
      · rename_i ks hks
        cases h
        cases i with
        | zero => simpa using hk
        | succ i =>
          have := ih ks hks i (by simpa using hi)
          simpa using this

/-! ## The handler on an accepted batch -/

theorem pendingItem_index (cache : Nat → String → CacheGetResult) (locs : List JSVal)
    (keys : List String) (i : Nat) (item : PendingFetch)
    (h : pendingItem cache locs keys i = some item) :
    item = ⟨i, locs.getD i .undefined, keys.getD i ""⟩ ∧ hitAt cache keys i = none
      ∧ i < keys.length := by
  unfold pendingItem at h
  split at h
  · rename_i hi
    split at h
    · cases h
    · rename_i hnone
      cases h
      exact ⟨rfl, hnone, hi⟩
  · cases h

theorem pendingItem_of_none (cache : Nat → String → CacheGetResult) (locs : List JSVal)
    (keys : List String) (i : Nat) (hi : i < keys.length) (h : hitAt cache keys i = none) :
    pendingItem cache locs keys i = some ⟨i, locs.getD i .undefined, keys.getD i ""⟩ := by
  unfold pendingItem
  rw [if_pos hi, h]

theorem pendingItem_of_some (cache : Nat → String → CacheGetResult) (locs : List JSVal)
    (keys : List String) (i : Nat) (v : JSVal) (h : hitAt cache keys i = some v) :
    pendingItem cache locs keys i = none := by
  unfold pendingItem
  rw [h]
  split <;> rfl

theorem pendingItems_indices (cache : Nat → String → CacheGetResult) (locs : List JSVal)
    (keys : List String) (order : List Nat) :
    (pendingItems cache locs keys order).map (fun item => item.originalIndex) =
      order.filter (fun i => (pendingItem cache locs keys i).isSome) := by
  unfold pendingItems
  induction order with
  | nil => rfl
  | cons i rest ih =>
    cases h : pendingItem cache locs keys i with
    | none => simp [List.filterMap_cons, List.filter_cons, h, ih]
    | some item =>
      have := (pendingItem_index _ _ _ _ _ h).1
      simp [List.filterMap_cons, List.filter_cons, h, ih, this]

theorem cachePhase_toFetch (cache : Nat → String → CacheGetResult) (locs : List JSVal)
    (keys : List String) (order : List Nat) :
    (cachePhase cache locs keys order).locationsToFetch = pendingItems cache locs keys order := by
  unfold cachePhase pendingItems
  rw [foldl_lookup_toFetch]
  rfl

theorem cachePhase_results (cache : Nat → String → CacheGetResult) (locs : List JSVal)
    (keys : List String) (order : List Nat) (j : Nat) :
    (cachePhase cache locs keys order).results j =
      match (if j ∈ order then hitAt cache keys j else none) with
      | some parsed => parsed
      | none => .undefined := by
  unfold cachePhase
  rw [foldl_lookup_results]

theorem fetchPhase_fst (ttl : JSVal) (axiosGet : JSVal → AxiosResult) (st : LookupState) :
    (fetchPhase ttl axiosGet st).1 =
      st.locationsToFetch.foldl
        (fun fs item =>
          ⟨fs.results.set item.originalIndex (storedFor axiosGet item),
            fs.cacheSets ++ (writeBack ttl axiosGet item).toList⟩) ⟨st.results, []⟩ := by
  unfold fetchPhase
  split
  · exact fetch_fold_eq _ _ _ _
  · rename_i h
    have : st.locationsToFetch = [] := by
      cases hl : st.locationsToFetch with
      | nil => rfl
      | cons a b => simp [hl] at h
    rw [this]
    rfl

theorem finalResult_congr (results : Results) (loc : JSVal) (i : Nat) (v : JSVal)
    (h : results i = v) : finalResult results loc i = finalResult (fun _ => v) loc 0 := by
  unfold finalResult
  rw [h]

theorem finalResult_storedFor (axiosGet : JSVal → AxiosResult) (item : PendingFetch) :
    finalResult (fun _ => storedFor axiosGet item) item.location 0 =
      fetchOutcome axiosGet item.location := by
  unfold storedFor fetchOutcome
  cases h : getWeatherByCity axiosGet item.location with
  | ok v =>
    simp [finalResult, settled, JSVal.get, JSVal.isStr, List.lookup]
  | error m =>
    simp [finalResult, failureRecord, JSVal.get, JSVal.isStr, List.lookup]

/-- The element of the response at an index of an accepted batch. -/
theorem final_element (ttl : JSVal) (cache : Nat → String → CacheGetResult)
    (axiosGet : JSVal → AxiosResult) (order : List Nat) (locs : List JSVal)
    (keys : List String) (hlen : keys.length = locs.length)
    (hperm : order.Perm (List.range locs.length)) (i : Nat) (hi : i < locs.length) :
    finalResult (fetchPhase ttl axiosGet (cachePhase cache locs keys order)).1.results
        (locs.get ⟨i, hi⟩) i =
      resolveOne axiosGet (locs.get ⟨i, hi⟩) (cache i (keys.getD i "")) := by
  have hmem : i ∈ order := (hperm.mem_iff).mpr (List.mem_range.mpr hi)
  have hnodup : order.Nodup := (hperm.nodup_iff).mpr (List.nodup_range _)
  have hik : i < keys.length := by omega
  have hhit : hitAt cache keys i = hitValue (cache i (keys.getD i "")) := by
    unfold hitAt
    rw [if_pos hik]
  rw [fetchPhase_fst, cachePhase_toFetch]
  unfold resolveOne
  rw [← hhit]
  cases hv : hitAt cache keys i with
  | some v =>
    apply finalResult_congr
    rw [store_fold_results_of_not_mem]
    · show (cachePhase cache locs keys order).results i = v
      rw [cachePhase_results, if_pos hmem, hv]
    · rw [pendingItems_indices, List.mem_filter]
      rintro ⟨_, h⟩
      rw [pendingItem_of_some _ _ _ _ _ hv] at h
      cases h
  | none =>
    have hitem := pendingItem_of_none cache locs keys i hik hv
    have hin : (⟨i, locs.getD i .undefined, keys.getD i ""⟩ : PendingFetch) ∈
        pendingItems cache locs keys order := by
      unfold pendingItems
      rw [List.mem_filterMap]
      exact ⟨i, hmem, hitem⟩
    have hnd : ((pendingItems cache locs keys order).map
        (fun item => item.originalIndex)).Nodup := by
      rw [pendingItems_indices]
      exact hnodup.filter _
    have hloc : locs.getD i .undefined = locs.get ⟨i, hi⟩ := by
      simp [List.getD, List.getElem?_eq_getElem hi]
    have hstore := store_fold_results_of_mem ttl axiosGet _
      ⟨(cachePhase cache locs keys order).results, []⟩ _ hnd hin
    simp only at hstore
    rw [finalResult_congr _ _ _ _ hstore]
    have := finalResult_storedFor axiosGet ⟨i, locs.getD i .undefined, keys.getD i ""⟩
    simp only at this
    rw [hloc] at this
    rw [← this, hloc]

theorem all_resolved_of_perm (order : List Nat) (n : Nat) (hperm : order.Perm (List.range n)) :
    (List.range n).all (fun index => decide (index ∈ order)) = true := by
  rw [List.all_eq_true]
  intro i hi
  exact decide_eq_true ((hperm.mem_iff).mpr hi)

theorem fetchPhase_snd (ttl : JSVal) (axiosGet : JSVal → AxiosResult) (st : LookupState) :
    (fetchPhase ttl axiosGet st).2 =
      if st.locationsToFetch.length > 0 then
        [st.locationsToFetch.map (fun item => item.location)]
      else [] := by
  unfold fetchPhase
  split <;> rfl

/-- The whole run of the handler on an accepted batch whose keys could be derived, for any
order of completion of the lookups. -/
theorem postWeather_eq (envSeconds : Option String) (cache : Nat → String → CacheGetResult)
    (axiosGet : JSVal → AxiosResult) (order : List Nat) (locs : List JSVal)
    (keys : List String) (h1 : 1 ≤ locs.length) (h10 : locs.length ≤ 10)
    (hk : cacheKeys locs = .ok keys) (hperm : order.Perm (List.range locs.length)) :
    postWeather envSeconds cache axiosGet order (.arr locs) =
      ⟨.json 200 (.arr (mapWithIndex
          (fun loc i => resolveOne axiosGet loc (cache i (keys.getD i ""))) 0 locs)),
        keys,
        (if (pendingItems cache locs keys order).length > 0 then
          [(pendingItems cache locs keys order).map (fun item => item.location)]
        else []),
        (pendingItems cache locs keys order).filterMap
          (writeBack (CACHE_EXPIRATION envSeconds) axiosGet)⟩ := by
  have hlen := cacheKeys_length locs keys hk
  have hcond : ¬ (locs.length = 0 ∨ locs.length > 10) := by omega
  simp only [postWeather, hcond, if_false, hk, all_resolved_of_perm order _ hperm, if_true]
  congr 1
  · congr 2
    apply mapWithIndex_congr
    intro i hi
    simp only [Nat.zero_add]
    exact final_element _ cache axiosGet order locs keys hlen hperm i hi
  · rw [fetchPhase_snd, cachePhase_toFetch]
  · rw [fetchPhase_fst, store_fold_cacheSets, cachePhase_toFetch]
    rfl

/-! ## Key normalizer -/

theorem isWhiteSpace_iff (c : Char) : isWhiteSpace c = true ↔
    (c.toNat = 9 ∨ c.toNat = 10 ∨ c.toNat = 11 ∨ c.toNat = 12 ∨ c.toNat = 13 ∨ c.toNat = 32
      ∨ c.toNat = 160 ∨ c.toNat = 5760 ∨ (8192 ≤ c.toNat ∧ c.toNat ≤ 8202) ∨ c.toNat = 8232
      ∨ c.toNat = 8233 ∨ c.toNat = 8239 ∨ c.toNat = 8287 ∨ c.toNat = 12288
      ∨ c.toNat = 65279) := by
  simp only [isWhiteSpace, Bool.or_eq_true, beq_iff_eq, Bool.and_eq_true, decide_eq_true_eq]
  omega

theorem replaceScan_true_eq (s : List Char) :
    replaceScan true s = replaceScan false (s.dropWhile isWhiteSpace) := by
  induction s with
  | nil => rfl
  | cons c cs ih =>
    cases hc : isWhiteSpace c with
    | true => simp only [replaceScan, hc, if_true, List.dropWhile_cons, ih]
    | false =>
      simp only [replaceScan, hc, List.dropWhile_cons, Bool.false_eq_true, if_false]

/-- The scan, read on the maximal runs: only the first run depends on `inRun`. -/
theorem replaceScan_splitRuns (s : List Char) : ∀ b : Bool,
    replaceScan b s =
      match splitRuns s with
      | [] => []
      | [] :: runs => (runs.map collapseRun).flatten
      | (c :: run) :: runs =>
        (if isWhiteSpace c then (if b then [] else ['_']) else c :: run)
          ++ (runs.map collapseRun).flatten := by
  induction s with
  | nil => intro b; rfl
  | cons x xs ih =>
    intro b
    have iht := ih true
    have ihf := ih false
    simp only [replaceScan, splitRuns]
    cases hr : splitRuns xs with
    | nil =>
      rw [hr] at iht ihf
      simp only at iht ihf
      cases hx : isWhiteSpace x <;> cases b <;> simp [iht, ihf, hx]
    | cons r runs =>
      rw [hr] at iht ihf
      cases r with
      | nil =>
        simp only at iht ihf
        cases hx : isWhiteSpace x <;> cases b <;> simp [iht, ihf, hx]
      | cons d run =>
        simp only at iht ihf
        cases hx : isWhiteSpace x <;> cases hd : isWhiteSpace d <;> cases b <;>
          simp [iht, ihf, hx, hd, collapseRun]

theorem replaceScan_eq_collapseRuns (s : List Char) :
    replaceScan false s = collapseRuns s := by
  rw [replaceScan_splitRuns s false, collapseRuns]
  cases splitRuns s with
  | nil => rfl
  | cons r runs =>
    cases r with
    | nil => simp [collapseRun]
    | cons c run => cases hc : isWhiteSpace c <;> simp [collapseRun, hc]

theorem replaceScan_no_whitespace (b : Bool) (s : List Char) :
    ∀ c ∈ replaceScan b s, isWhiteSpace c = false := by
  induction s generalizing b with
  | nil => simp [replaceScan]
  | cons x xs ih =>
    intro c hc
    simp only [replaceScan] at hc
    split at hc
    · split at hc
      · exact ih _ c hc
      · rcases List.mem_cons.mp hc with h | h
        · subst h
          decide
        · exact ih _ c h
    · rename_i hx
      rcases List.mem_cons.mp hc with h | h
      · subst h
        simpa using hx
      · exact ih _ c h

theorem replaceScan_true_append (r s : List Char) (hws : ∀ c ∈ r, isWhiteSpace c = true) :
    replaceScan true (r ++ s) = replaceScan true s := by
  induction r with
  | nil => rfl
  | cons x xs ih =>
    have hx : isWhiteSpace x = true := hws x (List.mem_cons_self _ _)
    simp only [List.cons_append, replaceScan, hx, if_true]
    exact ih (fun c hc => hws c (List.mem_cons_of_mem _ hc))

theorem replaceScan_run (b : Bool) (r s : List Char) (hr : r ≠ [])
    (hws : ∀ c ∈ r, isWhiteSpace c = true) :
    replaceScan b (r ++ s) = (if b then [] else ['_']) ++ replaceScan true s := by
  cases r with
  | nil => exact absurd rfl hr
  | cons x xs =>
    have hx : isWhiteSpace x = true := hws x (List.mem_cons_self _ _)
    have hxs := replaceScan_true_append xs s (fun c hc => hws c (List.mem_cons_of_mem _ hc))
    simp only [List.cons_append, replaceScan, hx, if_true]
    cases b <;> simp [hxs]

theorem replaceScan_same (s t : List Char) (h : SameUpToSpacing s t) :
    ∀ b, replaceScan b s = replaceScan b t := by
  induction h with
  | nil => intro b; rfl
  | char c s t hc _ ih =>
    intro b
    simp only [replaceScan, hc, Bool.false_eq_true, if_false]
    rw [ih false]
  | run r1 r2 s t h1 h2 hw1 hw2 _ ih =>
    intro b
    rw [replaceScan_run b r1 _ h1 hw1, replaceScan_run b r2 _ h2 hw2, ih true]

theorem cacheKey_str (s : String) : cacheKey (.str s) = .ok (normalizeKey s) := rfl

theorem toLower_of_isWhiteSpace (c : Char) (h : isWhiteSpace c = true) : c.toLower = c := by
  rw [isWhiteSpace_iff] at h
  show (if c.toNat ≥ 65 ∧ c.toNat ≤ 90 then Char.ofNat (c.toNat + 32) else c) = c
  rw [if_neg]
  omega

theorem toNat_toLower (c : Char) :
    c.toLower.toNat = if 65 ≤ c.toNat ∧ c.toNat ≤ 90 then c.toNat + 32 else c.toNat := by
  show (if c.toNat ≥ 65 ∧ c.toNat ≤ 90 then Char.ofNat (c.toNat + 32) else c).toNat = _
  split
  · rename_i h
    have hvalid : (c.toNat + 32).isValidChar := by
      left
      omega
    simp only [Char.ofNat, Char.toNat] at hvalid ⊢
    rw [dif_pos hvalid]
    rfl
  · rfl

theorem isWhiteSpace_toLower (c : Char) : isWhiteSpace c.toLower = isWhiteSpace c := by
  rw [Bool.eq_iff_iff, isWhiteSpace_iff, isWhiteSpace_iff, toNat_toLower]
  split <;> omega

theorem simpleLower_ascii_table : ∀ n, n < 128 →
    simpleLower (Char.ofNat n) = (Char.ofNat n).toLower := by
  decide

theorem simpleLower_ascii (c : Char) (h : c.toNat < 128) : simpleLower c = c.toLower := by
  have := simpleLower_ascii_table c.toNat h
  rwa [Char.ofNat_toNat] at this

/-- On a string of ASCII characters `toLowerCase` lowers the letters `A` to `Z` and keeps the
rest. -/
theorem lowerScan_ascii (s : List Char) : ∀ before : List Char,
    (∀ c ∈ s, c.toNat < 128) → lowerScan before s = s.map Char.toLower := by
  induction s with
  | nil => intro before _; rfl
  | cons c rest ih =>
    intro before h
    have hc : c.toNat < 128 := h c (List.mem_cons_self _ _)
    have h1 : ¬ c.toNat = 0x3A3 := by omega
    have h2 : ¬ c.toNat = 0x130 := by omega
    simp only [lowerScan, h1, h2, if_false, simpleLower_ascii c hc, List.map_cons,
      List.singleton_append]
    rw [ih _ (fun d hd => h d (List.mem_cons_of_mem _ hd))]

theorem map_toLower_run (r : List Char) (hws : ∀ c ∈ r, isWhiteSpace c = true) :
    r.map Char.toLower = r := by
  induction r with
  | nil => rfl
  | cons x xs ih =>
    rw [List.map_cons, toLower_of_isWhiteSpace x (hws x (List.mem_cons_self _ _)),
      ih (fun c hc => hws c (List.mem_cons_of_mem _ hc))]

theorem same_lowered (s t : List Char) (h : SameUpToCaseAndSpacing s t) :
    (∀ c ∈ s, c.toNat < 128) → (∀ c ∈ t, c.toNat < 128) →
    SameUpToSpacing (s.map Char.toLower) (t.map Char.toLower) := by
  induction h with
  | nil => intro _ _; exact .nil
  | char c d s t hc hd hcd _ ih =>
    intro hs ht
    have hca := hs c (List.mem_cons_self _ _)
    have hda := ht d (List.mem_cons_self _ _)
    rw [simpleLower_ascii c hca, simpleLower_ascii d hda] at hcd
    simp only [List.map_cons]
    rw [hcd]
    refine .char _ _ _ ?_ (ih (fun x hx => hs x (List.mem_cons_of_mem _ hx))
      (fun x hx => ht x (List.mem_cons_of_mem _ hx)))
    rw [isWhiteSpace_toLower, hd]
  | run r1 r2 s t h1 h2 hw1 hw2 _ ih =>
    intro hs ht
    rw [List.map_append, List.map_append, map_toLower_run r1 hw1, map_toLower_run r2 hw2]
    exact .run r1 r2 _ _ h1 h2 hw1 hw2
      (ih (fun x hx => hs x (List.mem_append_right _ hx))
        (fun x hx => ht x (List.mem_append_right _ hx)))

/-- The two strings `U+0391 U+03A3` and `U+03B1 U+03C3` differ only in letter case; the first
gets the key `weather_` with `U+03B1 U+03C2` (final sigma), the second the key `weather_` with
`U+03B1 U+03C3`. -/
theorem C8_counterexample :
    SameUpToCaseAndSpacing "\u0391\u03a3".data "\u03b1\u03c3".data
    ∧ cacheKey (.str "\u0391\u03a3") = .ok "weather_\u03b1\u03c2"
    ∧ cacheKey (.str "\u03b1\u03c3") = .ok "weather_\u03b1\u03c3"
    ∧ cacheKey (.str "\u0391\u03a3") ≠ cacheKey (.str "\u03b1\u03c3") := by
  refine ⟨?_, by decide, by decide, by decide⟩
  exact .char _ _ _ _ (by decide) (by decide) (by decide)
    (.char _ _ _ _ (by decide) (by decide) (by decide) .nil)

/-- C8, as amended: the cache key of a location string is `weather_` followed by the result of
`toLowerCase()` in which each maximal run of whitespace is one underscore; two strings whose
`toLowerCase()` results differ only in the lengths of their whitespace runs have the same
key, and so have two strings of ASCII characters that differ only in letter case and in the
lengths of their whitespace runs (`New York` and `new   york` both give `weather_new_york`);
no key contains a whitespace character. -/
theorem C8_cache_key_normalization (s t : String) :
    cacheKey (.str s) = .ok ("weather_" ++ String.mk (collapseRuns (toLowerCase s.data)))
    ∧ (SameUpToSpacing (toLowerCase s.data) (toLowerCase t.data) →
        cacheKey (.str s) = cacheKey (.str t))
    ∧ ((∀ c ∈ s.data, c.toNat < 128) → (∀ c ∈ t.data, c.toNat < 128) →
        SameUpToCaseAndSpacing s.data t.data → cacheKey (.str s) = cacheKey (.str t))
    ∧ cacheKey (.str "New York") = .ok "weather_new_york"
    ∧ cacheKey (.str "new   york") = .ok "weather_new_york"
    ∧ (∀ c ∈ (normalizeKey s).data, isWhiteSpace c = false) := by
  refine ⟨?_, ?_, ?_, by decide, by decide, ?_⟩
  · rw [cacheKey_str, normalizeKey, replaceWhitespace, replaceScan_eq_collapseRuns]
  · intro h
    rw [cacheKey_str, cacheKey_str, normalizeKey, normalizeKey, replaceWhitespace,
      replaceWhitespace, replaceScan_same _ _ h false]
  · intro hs ht h
    have hsame := same_lowered _ _ h hs ht
    rw [cacheKey_str, cacheKey_str, normalizeKey, normalizeKey, replaceWhitespace,
      replaceWhitespace, toLowerCase, toLowerCase, lowerScan_ascii _ _ hs,
      lowerScan_ascii _ _ ht, replaceScan_same _ _ hsame false]
  · intro c hc
    rw [normalizeKey, String.data_append] at hc
    rcases List.mem_append.mp hc with h | h
    · have hleading : ∀ d ∈ "weather_".data, isWhiteSpace d = false := by decide
      exact hleading c h
    · exact replaceScan_no_whitespace _ _ c h

theorem C8_cache_key_normalization_witness :
    SameUpToSpacing (toLowerCase "New York".data) (toLowerCase "new   york".data)
    ∧ (∀ c ∈ "New York".data, c.toNat < 128) ∧ (∀ c ∈ "new   york".data, c.toNat < 128)
    ∧ SameUpToCaseAndSpacing "New York".data "new   york".data
    ∧ cacheKey (.str "New York") = cacheKey (.str "new   york")
    ∧ cacheKey (.str "New York") = cacheKey (.str "new   york")
    ∧ cacheKey (.str "\u00c9COLE") = .ok "weather_\u00e9cole" :=
  have e1 : toLowerCase "New York".data = ['n', 'e', 'w'] ++ ([' '] ++ ['y', 'o', 'r', 'k']) := by
    decide
  have e2 : toLowerCase "new   york".data =
      ['n', 'e', 'w'] ++ ([' ', ' ', ' '] ++ ['y', 'o', 'r', 'k']) := by
    decide
  have h : SameUpToSpacing (toLowerCase "New York".data) (toLowerCase "new   york".data) := by
    rw [e1, e2]
    exact .char 'n' _ _ (by decide)
      (.char 'e' _ _ (by decide)
        (.char 'w' _ _ (by decide)
          (.run [' '] [' ', ' ', ' '] ['y', 'o', 'r', 'k'] ['y', 'o', 'r', 'k']
            (by decide) (by decide) (by decide) (by decide)
            (.char 'y' _ _ (by decide)
              (.char 'o' _ _ (by decide)
                (.char 'r' _ _ (by decide)
                  (.char 'k' _ _ (by decide) .nil)))))))
  have hcase : SameUpToCaseAndSpacing "New York".data "new   york".data :=
    .char 'N' 'n' _ _ (by decide) (by decide) (by decide)
      (.char 'e' 'e' _ _ (by decide) (by decide) (by decide)
        (.char 'w' 'w' _ _ (by decide) (by decide) (by decide)
          (.run [' '] [' ', ' ', ' '] ['Y', 'o', 'r', 'k'] ['y', 'o', 'r', 'k']
            (by decide) (by decide) (by decide) (by decide)
            (.char 'Y' 'y' _ _ (by decide) (by decide) (by decide)
              (.char 'o' 'o' _ _ (by decide) (by decide) (by decide)
                (.char 'r' 'r' _ _ (by decide) (by decide) (by decide)
                  (.char 'k' 'k' _ _ (by decide) (by decide) (by decide) .nil)))))))
  ⟨h, by decide, by decide, hcase,
    (C8_cache_key_normalization "New York" "new   york").2.1 h,
    (C8_cache_key_normalization "New York" "new   york").2.2.1 (by decide) (by decide) hcase,
    by decide⟩

/-! ## Batches of strings -/

theorem cacheKeys_strings (names : List String) :
    cacheKeys (names.map JSVal.str) = .ok (names.map normalizeKey) := by
  induction names with
  | nil => rfl
  | cons s rest ih => simp only [List.map_cons, cacheKeys, cacheKey_str, ih]

theorem keys_getD (names : List String) (i : Nat) (hi : i < names.length) :
    (names.map normalizeKey).getD i "" = normalizeKey names[i] := by
  simp [List.getD, List.getElem?_eq_getElem hi]

/-- The run of the handler on a batch of 1 to 10 strings. -/
theorem postWeather_strings (envSeconds : Option String)
    (cache : Nat → String → CacheGetResult) (axiosGet : JSVal → AxiosResult)
    (order : List Nat) (names : List String) (h1 : 1 ≤ names.length)
    (h10 : names.length ≤ 10) (hperm : order.Perm (List.range names.length)) :
    postWeather envSeconds cache axiosGet order (.arr (names.map JSVal.str)) =
      ⟨.json 200 (.arr (mapWithIndex
          (fun loc i => resolveOne axiosGet loc (cache i ((names.map normalizeKey).getD i "")))
          0 (names.map JSVal.str))),
        names.map normalizeKey,
        (if (pendingItems cache (names.map JSVal.str) (names.map normalizeKey) order).length > 0
          then [(pendingItems cache (names.map JSVal.str) (names.map normalizeKey) order).map
            (fun item => item.location)]
          else []),
        (pendingItems cache (names.map JSVal.str) (names.map normalizeKey) order).filterMap
          (writeBack (CACHE_EXPIRATION envSeconds) axiosGet)⟩ := by
  apply postWeather_eq
  · simpa using h1
  · simpa using h10
  · exact cacheKeys_strings names
  · simpa using hperm

theorem strings_element (axiosGet : JSVal → AxiosResult) (cache : Nat → String → CacheGetResult)
    (names : List String) (i : Nat) (hi : i < names.length) :
    (mapWithIndex
        (fun loc i => resolveOne axiosGet loc (cache i ((names.map normalizeKey).getD i "")))
        0 (names.map JSVal.str))[i]? =
      some (resolveOne axiosGet (.str names[i]) (cache i (normalizeKey names[i]))) := by
  rw [mapWithIndex_getElem?]
  simp [List.getElem?_eq_getElem hi, keys_getD names i hi]

/-- C1: on a batch of 1 to 10 non-empty strings, whatever the cache and the provider do and in
whatever order the cache lookups complete, the handler answers with an array that has as
many elements as the batch, and element `i` is the outcome of the lookup and of the fetch
made for `locations[i]` alone. -/
theorem C1_output_matches_input (envSeconds : Option String)
    (cache : Nat → String → CacheGetResult) (axiosGet : JSVal → AxiosResult)
    (order : List Nat) (names : List String) (hvalid : validBatch names)
    (hperm : order.Perm (List.range names.length)) :
    ∃ out : List JSVal,
      (postWeather envSeconds cache axiosGet order (.arr (names.map JSVal.str))).response =
        .json 200 (.arr out)
      ∧ out.length = names.length
      ∧ ∀ (i : Nat) (hi : i < names.length),
          out[i]? = some (resolveOne axiosGet (.str names[i]) (cache i (normalizeKey names[i]))) := by
  rw [postWeather_strings envSeconds cache axiosGet order names hvalid.1 hvalid.2.1 hperm]
  refine ⟨_, rfl, ?_, ?_⟩
  · simp [mapWithIndex_length]
  · intro i hi
    exact strings_element axiosGet cache names i hi

theorem C1_output_matches_input_witness :
    validBatch ["validcity", "badcity"] ∧ [1, 0].Perm (List.range 2)
    ∧ ∃ out : List JSVal,
      (postWeather none emptyCache sampleUpstream [1, 0]
        (.arr [.str "validcity", .str "badcity"])).response = .json 200 (.arr out)
      ∧ out.length = 2
      ∧ ∀ (i : Nat) (hi : i < 2),
          out[i]? = some (resolveOne sampleUpstream (.str ["validcity", "badcity"][i])
            (emptyCache i (normalizeKey ["validcity", "badcity"][i]))) :=
  ⟨by decide, by decide,
    C1_output_matches_input none emptyCache sampleUpstream [1, 0] ["validcity", "badcity"]
      (by decide) (by decide)⟩

/-! ## Write-back per index -/

theorem getWeatherByCity_congr (a1 a2 : JSVal → AxiosResult) (location : JSVal)
    (h : a1 location = a2 location) :
    getWeatherByCity a1 location = getWeatherByCity a2 location := by
  unfold getWeatherByCity
  rw [h]

theorem writeBack_index (ttl : JSVal) (axiosGet : JSVal → AxiosResult) (item : PendingFetch)
    (c : CacheSetCall) (h : writeBack ttl axiosGet item = some c) :
    c.originalIndex = item.originalIndex := by
  unfold writeBack at h
  split at h
  · cases h
    rfl
  · cases h

theorem filter_writeBack_of_not_mem (ttl : JSVal) (axiosGet : JSVal → AxiosResult)
    (items : List PendingFetch) (j : Nat)
    (hj : j ∉ items.map (fun item => item.originalIndex)) :
    (items.filterMap (writeBack ttl axiosGet)).filter
      (fun c => decide (c.originalIndex = j)) = [] := by
  rw [List.filter_eq_nil_iff]
  intro c hc
  rw [List.mem_filterMap] at hc
  obtain ⟨item, hitem, hw⟩ := hc
  have := writeBack_index _ _ _ _ hw
  simp only [decide_eq_true_eq]
  intro hcj
  apply hj
  rw [List.mem_map]
  exact ⟨item, hitem, by omega⟩

theorem filter_writeBack_of_mem (ttl : JSVal) (axiosGet : JSVal → AxiosResult)
    (items : List PendingFetch) (item : PendingFetch)
    (hnodup : (items.map (fun item => item.originalIndex)).Nodup) (hmem : item ∈ items) :
    (items.filterMap (writeBack ttl axiosGet)).filter
      (fun c => decide (c.originalIndex = item.originalIndex)) =
      (writeBack ttl axiosGet item).toList := by
  induction items with
  | nil => cases hmem
  | cons x rest ih =>
    simp only [List.map_cons, List.nodup_cons] at hnodup
    rcases List.mem_cons.mp hmem with hx | hrest
    · subst hx
      have hrest := filter_writeBack_of_not_mem ttl axiosGet rest _ hnodup.1
      cases hw : writeBack ttl axiosGet item with
      | none => simp [List.filterMap_cons, hw, hrest]
      | some c =>
        have hc := writeBack_index _ _ _ _ hw
        simp [List.filterMap_cons, hw, List.filter_cons, hc, hrest]
    · have hne : x.originalIndex ≠ item.originalIndex := by
        intro e
        apply hnodup.1
        rw [List.mem_map]
        exact ⟨item, hrest, e.symm⟩
      cases hw : writeBack ttl axiosGet x with
      | none => simp [List.filterMap_cons, hw, ih hnodup.2 hrest]
      | some c =>
        have hc := writeBack_index _ _ _ _ hw
        simp [List.filterMap_cons, hw, List.filter_cons, hc, hne, ih hnodup.2 hrest]

theorem pendingItems_nodup (cache : Nat → String → CacheGetResult) (locs : List JSVal)
    (keys : List String) (order : List Nat) (h : order.Nodup) :
    ((pendingItems cache locs keys order).map (fun item => item.originalIndex)).Nodup := by
  rw [pendingItems_indices]
  exact h.filter _

theorem hitAt_strings (cache : Nat → String → CacheGetResult) (names : List String) (i : Nat)
    (hi : i < names.length) :
    hitAt cache (names.map normalizeKey) i = hitValue (cache i (normalizeKey names[i])) := by
  unfold hitAt
  rw [if_pos (by simpa using hi), keys_getD names i hi]

theorem pendingItem_strings (cache : Nat → String → CacheGetResult) (names : List String)
    (i : Nat) (hi : i < names.length) :
    pendingItem cache (names.map JSVal.str) (names.map normalizeKey) i =
      match hitValue (cache i (normalizeKey names[i])) with
      | some _ => none
      | none => some ⟨i, .str names[i], normalizeKey names[i]⟩ := by
  unfold pendingItem
  rw [if_pos (by simpa using hi), hitAt_strings cache names i hi, keys_getD names i hi]
  have : (names.map JSVal.str).getD i .undefined = .str names[i] := by
    simp [List.getD, List.getElem?_eq_getElem hi]
  rw [this]

/-- The cache writes made for one index of a batch of strings. -/
theorem cacheSets_at (ttl : JSVal) (cache : Nat → String → CacheGetResult)
    (axiosGet : JSVal → AxiosResult) (order : List Nat) (names : List String)
    (hperm : order.Perm (List.range names.length)) (i : Nat) (hi : i < names.length) :
    ((pendingItems cache (names.map JSVal.str) (names.map normalizeKey) order).filterMap
        (writeBack ttl axiosGet)).filter (fun c => decide (c.originalIndex = i)) =
      match hitValue (cache i (normalizeKey names[i])) with
      | some _ => []
      | none => (writeBack ttl axiosGet ⟨i, .str names[i], normalizeKey names[i]⟩).toList := by
  have hmem : i ∈ order := (hperm.mem_iff).mpr (List.mem_range.mpr hi)
  have hnodup : order.Nodup := (hperm.nodup_iff).mpr (List.nodup_range _)
  have hitem := pendingItem_strings cache names i hi
  cases hv : hitValue (cache i (normalizeKey names[i])) with
  | some v =>
    rw [hv] at hitem
    apply filter_writeBack_of_not_mem
    rw [pendingItems_indices, List.mem_filter]
    rintro ⟨_, h⟩
    rw [hitem] at h
    cases h
  | none =>
    rw [hv] at hitem
    have hin : (⟨i, .str names[i], normalizeKey names[i]⟩ : PendingFetch) ∈
        pendingItems cache (names.map JSVal.str) (names.map normalizeKey) order := by
      unfold pendingItems
      rw [List.mem_filterMap]
      exact ⟨i, hmem, hitem⟩
    exact filter_writeBack_of_mem ttl axiosGet _ _ (pendingItems_nodup _ _ _ _ hnodup) hin

/-- C5: on a valid batch and for every order of completion of the lookups, the `cache.set`
calls are exactly one per index that went to the fetch phase and whose fetch succeeded, made
with the key of `locations[i]`, the serialized snapshot of that index and `CACHE_EXPIRATION`;
an index that was a cache hit or whose fetch failed gets no call. -/
theorem C5_write_back_per_index (envSeconds : Option String)
    (cache : Nat → String → CacheGetResult) (axiosGet : JSVal → AxiosResult)
    (order : List Nat) (names : List String) (hvalid : validBatch names)
    (hperm : order.Perm (List.range names.length)) :
    (∀ (i : Nat) (hi : i < names.length),
      (postWeather envSeconds cache axiosGet order (.arr (names.map JSVal.str))).cacheSets.filter
          (fun c => decide (c.originalIndex = i)) =
        match hitValue (cache i (normalizeKey names[i])),
            getWeatherByCity axiosGet (.str names[i]) with
        | none, .ok snapshot =>
          [⟨i, normalizeKey names[i], JSON.stringify snapshot, CACHE_EXPIRATION envSeconds⟩]
        | _, _ => [])
    ∧ ∀ c ∈ (postWeather envSeconds cache axiosGet order
        (.arr (names.map JSVal.str))).cacheSets, c.originalIndex < names.length := by
  rw [postWeather_strings envSeconds cache axiosGet order names hvalid.1 hvalid.2.1 hperm]
  constructor
  · intro i hi
    simp only
    rw [cacheSets_at _ cache axiosGet order names hperm i hi]
    cases hitValue (cache i (normalizeKey names[i])) with
    | some v => rfl
    | none =>
      simp only [writeBack]
      cases getWeatherByCity axiosGet (.str names[i]) <;> rfl
  · intro c hc
    simp only at hc
    rw [List.mem_filterMap] at hc
    obtain ⟨item, hitem, hw⟩ := hc
    rw [writeBack_index _ _ _ _ hw]
    unfold pendingItems at hitem
    rw [List.mem_filterMap] at hitem
    obtain ⟨j, _, hj⟩ := hitem
    obtain ⟨hitem_eq, _, hlt⟩ := pendingItem_index _ _ _ _ _ hj
    rw [hitem_eq]
    simpa using hlt

theorem C5_write_back_per_index_witness :
    validBatch ["validcity", "badcity"] ∧ [1, 0].Perm (List.range 2)
    ∧ (postWeather none emptyCache sampleUpstream [1, 0]
        (.arr [.str "validcity", .str "badcity"])).cacheSets =
      [⟨0, "weather_validcity", JSON.stringify sampleSnapshot, .num 3600⟩]
    ∧ ((∀ (i : Nat) (hi : i < 2),
      (postWeather none emptyCache sampleUpstream [1, 0]
          (.arr [.str "validcity", .str "badcity"])).cacheSets.filter
          (fun c => decide (c.originalIndex = i)) =
        match hitValue (emptyCache i (normalizeKey ["validcity", "badcity"][i])),
            getWeatherByCity sampleUpstream (.str ["validcity", "badcity"][i]) with
        | none, .ok snapshot =>
          [⟨i, normalizeKey ["validcity", "badcity"][i], JSON.stringify snapshot,
            CACHE_EXPIRATION none⟩]
        | _, _ => [])
      ∧ ∀ c ∈ (postWeather none emptyCache sampleUpstream [1, 0]
          (.arr [.str "validcity", .str "badcity"])).cacheSets, c.originalIndex < 2) :=
  ⟨by decide, by decide, by decide,
    C5_write_back_per_index none emptyCache sampleUpstream [1, 0] ["validcity", "badcity"]
      (by decide) (by decide)⟩

/-! ## Independence of the fetches, and the three kinds of miss -/

/-- C2: on a valid batch, an index that goes to the fetch phase gets the snapshot of its own
fetch when that fetch succeeds and the record `{location, error}` with the message of its
own fetch when it fails; a provider that behaves the same for `locations[i]` and differently
for the other locations gives the same element `i` and the same cache write for index `i`. -/
theorem C2_fetch_outcome_per_index (envSeconds : Option String)
    (cache : Nat → String → CacheGetResult) (a1 a2 : JSVal → AxiosResult)
    (order : List Nat) (names : List String) (hvalid : validBatch names)
    (hperm : order.Perm (List.range names.length)) (i : Nat) (hi : i < names.length)
    (hpending : hitValue (cache i (normalizeKey names[i])) = none)
    (hagree : a1 (.str names[i]) = a2 (.str names[i])) :
    ∃ out1 out2 : List JSVal,
      (postWeather envSeconds cache a1 order (.arr (names.map JSVal.str))).response =
        .json 200 (.arr out1)
      ∧ (postWeather envSeconds cache a2 order (.arr (names.map JSVal.str))).response =
        .json 200 (.arr out2)
      ∧ out1[i]? = some
          (match getWeatherByCity a1 (.str names[i]) with
            | .ok snapshot => snapshot
            | .error message => .obj [("location", .str names[i]), ("error", .str message)])
      ∧ out2[i]? = out1[i]?
      ∧ (postWeather envSeconds cache a1 order (.arr (names.map JSVal.str))).cacheSets.filter
            (fun c => decide (c.originalIndex = i)) =
          (writeBack (CACHE_EXPIRATION envSeconds) a1
            ⟨i, .str names[i], normalizeKey names[i]⟩).toList
      ∧ (postWeather envSeconds cache a2 order (.arr (names.map JSVal.str))).cacheSets.filter
            (fun c => decide (c.originalIndex = i)) =
          (postWeather envSeconds cache a1 order (.arr (names.map JSVal.str))).cacheSets.filter
            (fun c => decide (c.originalIndex = i)) := by
  rw [postWeather_strings envSeconds cache a1 order names hvalid.1 hvalid.2.1 hperm,
    postWeather_strings envSeconds cache a2 order names hvalid.1 hvalid.2.1 hperm]
  have hfetch := getWeatherByCity_congr a1 a2 (.str names[i]) hagree
  refine ⟨_, _, rfl, rfl, ?_, ?_, ?_, ?_⟩
  · rw [strings_element a1 cache names i hi]
    simp only [resolveOne, hpending, fetchOutcome, failureRecord]
  · rw [strings_element a1 cache names i hi, strings_element a2 cache names i hi]
    simp only [resolveOne, hpending, fetchOutcome, hfetch]
  · simp only
    rw [cacheSets_at _ cache a1 order names hperm i hi, hpending]
  · simp only
    rw [cacheSets_at _ cache a1 order names hperm i hi,
      cacheSets_at _ cache a2 order names hperm i hi, hpending]
    simp only [writeBack, hfetch]

theorem C2_fetch_outcome_per_index_witness :
    validBatch ["validcity", "badcity"] ∧ [1, 0].Perm (List.range 2)
    ∧ hitValue (emptyCache 0 (normalizeKey "validcity")) = none
    ∧ sampleUpstream (.str "validcity") = otherUpstream (.str "validcity")
    ∧ (postWeather none emptyCache sampleUpstream [1, 0]
        (.arr [.str "validcity", .str "badcity"])).response =
      .json 200 (.arr [sampleSnapshot,
        .obj [("location", .str "badcity"),
          ("error", .str "Location not found or invalid: badcity")]])
    ∧ ∃ out1 out2 : List JSVal,
      (postWeather none emptyCache sampleUpstream [1, 0]
        (.arr [.str "validcity", .str "badcity"])).response = .json 200 (.arr out1)
      ∧ (postWeather none emptyCache otherUpstream [1, 0]
        (.arr [.str "validcity", .str "badcity"])).response = .json 200 (.arr out2)
      ∧ out1[0]? = some
          (match getWeatherByCity sampleUpstream (.str "validcity") with
            | .ok snapshot => snapshot
            | .error message => .obj [("location", .str "validcity"), ("error", .str message)])
      ∧ out2[0]? = out1[0]?
      ∧ (postWeather none emptyCache sampleUpstream [1, 0]
          (.arr [.str "validcity", .str "badcity"])).cacheSets.filter
            (fun c => decide (c.originalIndex = 0)) =
          (writeBack (CACHE_EXPIRATION none) sampleUpstream
            ⟨0, .str "validcity", normalizeKey "validcity"⟩).toList
      ∧ (postWeather none emptyCache otherUpstream [1, 0]
          (.arr [.str "validcity", .str "badcity"])).cacheSets.filter
            (fun c => decide (c.originalIndex = 0)) =
          (postWeather none emptyCache sampleUpstream [1, 0]
            (.arr [.str "validcity", .str "badcity"])).cacheSets.filter
            (fun c => decide (c.originalIndex = 0)) :=
  ⟨by decide, by decide, by decide, by decide, by decide,
    C2_fetch_outcome_per_index none emptyCache sampleUpstream otherUpstream [1, 0]
      ["validcity", "badcity"] (by decide) (by decide) 0 (by decide) (by decide) (by decide)⟩

theorem cachePhase_congr (c1 c2 : Nat → String → CacheGetResult) (locs : List JSVal)
    (keys : List String) (order : List Nat)
    (h : ∀ j key, hitValue (c1 j key) = hitValue (c2 j key)) :
    cachePhase c1 locs keys order = cachePhase c2 locs keys order := by
  unfold cachePhase
  congr 1
  funext st index
  rw [cacheCallback_eq, cacheCallback_eq, h]

theorem postWeather_congr (envSeconds : Option String) (c1 c2 : Nat → String → CacheGetResult)
    (axiosGet : JSVal → AxiosResult) (order : List Nat) (locations : JSVal)
    (h : ∀ j key, hitValue (c1 j key) = hitValue (c2 j key)) :
    postWeather envSeconds c1 axiosGet order locations =
      postWeather envSeconds c2 axiosGet order locations := by
  cases locations with
  | arr locs =>
    simp only [postWeather]
    split
    · rfl
    · split
      · rfl
      · rename_i keys _
        rw [cachePhase_congr c1 c2 locs keys order h]
  | _ => rfl

theorem hitValue_cacheWith (cache : Nat → String → CacheGetResult) (i : Nat)
    (g1 g2 : CacheGetResult) (h : hitValue g1 = hitValue g2) (j : Nat) (key : String) :
    hitValue (cacheWith cache i g1 j key) = hitValue (cacheWith cache i g2 j key) := by
  unfold cacheWith
  split
  · exact h
  · rfl

theorem hitValue_data_of_parse_none (body : String) (h : JSON.parse body = none) :
    hitValue (.data body) = none := by
  simp only [hitValue, h]
  split <;> rfl

theorem filter_index_of_mem (items : List PendingFetch) (item : PendingFetch)
    (hnodup : (items.map (fun item => item.originalIndex)).Nodup) (hmem : item ∈ items) :
    items.filter (fun it => decide (it.originalIndex = item.originalIndex)) = [item] := by
  induction items with
  | nil => cases hmem
  | cons x rest ih =>
    simp only [List.map_cons, List.nodup_cons] at hnodup
    rcases List.mem_cons.mp hmem with hx | hrest
    · subst hx
      have : rest.filter (fun it => decide (it.originalIndex = item.originalIndex)) = [] := by
        rw [List.filter_eq_nil_iff]
        intro it hit
        simp only [decide_eq_true_eq]
        intro e
        apply hnodup.1
        rw [List.mem_map]
        exact ⟨it, hit, e⟩
      simp [List.filter_cons, this]
    · have hne : x.originalIndex ≠ item.originalIndex := by
        intro e
        apply hnodup.1
        rw [List.mem_map]
        exact ⟨item, hrest, e.symm⟩
      simp [List.filter_cons, hne, ih hnodup.2 hrest]

/-- The entry of `locationsToFetch` for an index whose lookup stores nothing. -/
theorem pending_entry (cache : Nat → String → CacheGetResult) (order : List Nat)
    (names : List String) (hperm : order.Perm (List.range names.length)) (i : Nat)
    (hi : i < names.length) (hnone : hitValue (cache i (normalizeKey names[i])) = none) :
    (cachePhase cache (names.map JSVal.str) (names.map normalizeKey) order).locationsToFetch.filter
        (fun it => decide (it.originalIndex = i)) =
      [⟨i, .str names[i], normalizeKey names[i]⟩] := by
  have hmem : i ∈ order := (hperm.mem_iff).mpr (List.mem_range.mpr hi)
  have hnodup : order.Nodup := (hperm.nodup_iff).mpr (List.nodup_range _)
  have hitem := pendingItem_strings cache names i hi
  rw [hnone] at hitem
  have hin : (⟨i, .str names[i], normalizeKey names[i]⟩ : PendingFetch) ∈
      pendingItems cache (names.map JSVal.str) (names.map normalizeKey) order := by
    unfold pendingItems
    rw [List.mem_filterMap]
    exact ⟨i, hmem, hitem⟩
  rw [cachePhase_toFetch]
  exact filter_index_of_mem _ _ (pendingItems_nodup _ _ _ _ hnodup) hin

theorem cacheWith_self (cache : Nat → String → CacheGetResult) (i : Nat)
    (got : CacheGetResult) (key : String) : cacheWith cache i got i key = got := by
  simp [cacheWith]

/-- C3: on a valid batch, a miss, a cache error and a hit whose body does not parse at
index `i` give the same run of the handler: the same response and the same calls. In each
case `locationsToFetch` gets exactly one entry for index `i`, the fetcher is called with
`locations[i]`, the response is the 200 array and its element `i` is the outcome of that
fetch. -/
theorem C3_miss_error_corrupt_alike (envSeconds : Option String)
    (cache : Nat → String → CacheGetResult) (axiosGet : JSVal → AxiosResult)
    (order : List Nat) (names : List String) (hvalid : validBatch names)
    (hperm : order.Perm (List.range names.length)) (i : Nat) (hi : i < names.length)
    (body : String) (hbody : JSON.parse body = none) :
    postWeather envSeconds (cacheWith cache i .error) axiosGet order
        (.arr (names.map JSVal.str)) =
      postWeather envSeconds (cacheWith cache i .absent) axiosGet order
        (.arr (names.map JSVal.str))
    ∧ postWeather envSeconds (cacheWith cache i (.data body)) axiosGet order
        (.arr (names.map JSVal.str)) =
      postWeather envSeconds (cacheWith cache i .absent) axiosGet order
        (.arr (names.map JSVal.str))
    ∧ (∀ got ∈ [CacheGetResult.absent, CacheGetResult.error, CacheGetResult.data body],
        (cachePhase (cacheWith cache i got) (names.map JSVal.str) (names.map normalizeKey)
            order).locationsToFetch.filter (fun it => decide (it.originalIndex = i)) =
          [⟨i, .str names[i], normalizeKey names[i]⟩])
    ∧ ∃ (out pend : List JSVal),
        (postWeather envSeconds (cacheWith cache i .absent) axiosGet order
          (.arr (names.map JSVal.str))).response = .json 200 (.arr out)
        ∧ out[i]? = some (fetchOutcome axiosGet (.str names[i]))
        ∧ (postWeather envSeconds (cacheWith cache i .absent) axiosGet order
          (.arr (names.map JSVal.str))).serviceCalls = [pend]
        ∧ JSVal.str names[i] ∈ pend := by
  have hcorrupt := hitValue_data_of_parse_none body hbody
  refine ⟨?_, ?_, ?_, ?_⟩
  · exact postWeather_congr _ _ _ _ _ _ (hitValue_cacheWith cache i _ _ rfl)
  · exact postWeather_congr _ _ _ _ _ _ (hitValue_cacheWith cache i _ _ hcorrupt)
  · intro got hgot
    apply pending_entry _ order names hperm i hi
    rw [cacheWith_self]
    simp only [List.mem_cons, List.mem_singleton, List.not_mem_nil, or_false] at hgot
    rcases hgot with h | h | h
    · rw [h]; rfl
    · rw [h]; rfl
    · rw [h]; exact hcorrupt
  · have hnone : hitValue (cacheWith cache i .absent i (normalizeKey names[i])) = none := by
      rw [cacheWith_self]
      rfl
    have hentry := pending_entry (cacheWith cache i .absent) order names hperm i hi hnone
    rw [cachePhase_toFetch] at hentry
    have hin : (⟨i, .str names[i], normalizeKey names[i]⟩ : PendingFetch) ∈
        pendingItems (cacheWith cache i .absent) (names.map JSVal.str)
          (names.map normalizeKey) order := by
      have : (⟨i, .str names[i], normalizeKey names[i]⟩ : PendingFetch) ∈
          [(⟨i, .str names[i], normalizeKey names[i]⟩ : PendingFetch)] :=
        List.mem_singleton.mpr rfl
      rw [← hentry] at this
      exact (List.mem_filter.mp this).1
    have hpos : (pendingItems (cacheWith cache i .absent) (names.map JSVal.str)
        (names.map normalizeKey) order).length > 0 := List.length_pos_of_mem hin
    rw [postWeather_strings envSeconds _ axiosGet order names hvalid.1 hvalid.2.1 hperm]
    refine ⟨_, (pendingItems (cacheWith cache i .absent) (names.map JSVal.str)
        (names.map normalizeKey) order).map (fun item => item.location), rfl, ?_, ?_, ?_⟩
    · rw [strings_element axiosGet _ names i hi]
      simp only [resolveOne, hnone]
    · simp only [hpos, if_true]
    · rw [List.mem_map]
      exact ⟨_, hin, rfl⟩

theorem C3_miss_error_corrupt_alike_witness :
    validBatch ["validcity", "badcity"] ∧ [1, 0].Perm (List.range 2)
    ∧ JSON.parse "\x7bbad" = none
    ∧ postWeather none (cacheWith emptyCache 1 (.data "\x7bbad")) sampleUpstream [1, 0]
        (.arr [.str "validcity", .str "badcity"]) =
      postWeather none (cacheWith emptyCache 1 .absent) sampleUpstream [1, 0]
        (.arr [.str "validcity", .str "badcity"]) :=
  ⟨by decide, by decide, by decide,
    (C3_miss_error_corrupt_alike none emptyCache sampleUpstream [1, 0]
      ["validcity", "badcity"] (by decide) (by decide) 1 (by decide) "\x7bbad"
      (by decide)).2.1⟩

/-! ## Validation -/

/-- C6: when `locations` is not an array, or is an array of length 0 or of more than 10
elements, the handler answers with the 400 rejection and makes no cache get, no cache set
and no upstream call; an array of 1 to 10 non-empty strings is not rejected and its keys
are looked up. -/
theorem C6_cardinality_check (envSeconds : Option String)
    (cache : Nat → String → CacheGetResult) (axiosGet : JSVal → AxiosResult)
    (order : List Nat) :
    (∀ locations : JSVal,
      ((∀ locs, locations ≠ .arr locs)
        ∨ ∃ locs, locations = .arr locs ∧ (locs.length = 0 ∨ 10 < locs.length)) →
      postWeather envSeconds cache axiosGet order locations =
        ⟨.json 400 invalidBatch, [], [], []⟩)
    ∧ (∀ names : List String, validBatch names →
      (∀ body, (postWeather envSeconds cache axiosGet order
          (.arr (names.map JSVal.str))).response ≠ .json 400 body)
      ∧ (postWeather envSeconds cache axiosGet order (.arr (names.map JSVal.str))).cacheGets =
          names.map normalizeKey) := by
  constructor
  · intro locations h
    rcases h with h | ⟨locs, rfl, h⟩
    · cases locations with
      | arr locs => exact absurd rfl (h locs)
      | _ => rfl
    · have hc : locs.length = 0 ∨ locs.length > 10 := h
      simp only [postWeather, hc, if_true]
  · intro names hvalid
    have hcond : ¬ ((names.map JSVal.str).length = 0 ∨ (names.map JSVal.str).length > 10) := by
      have h1 := hvalid.1
      have h10 := hvalid.2.1
      simp only [List.length_map]
      omega
    simp only [postWeather, hcond, if_false, cacheKeys_strings]
    split
    · exact ⟨fun body h => (by cases h), rfl⟩
    · exact ⟨fun body h => (by cases h), rfl⟩

theorem C6_cardinality_check_witness :
    ((∀ locs, JSVal.str "london" ≠ .arr locs)
      ∨ ∃ locs, JSVal.str "london" = .arr locs ∧ (locs.length = 0 ∨ 10 < locs.length))
    ∧ postWeather none emptyCache sampleUpstream [] (.str "london") =
        ⟨.json 400 invalidBatch, [], [], []⟩
    ∧ validBatch ["london"]
    ∧ (postWeather none emptyCache sampleUpstream [0] (.arr [.str "london"])).cacheGets =
        ["weather_london"] :=
  ⟨Or.inl (fun _ h => by cases h),
    (C6_cardinality_check none emptyCache sampleUpstream []).1 (.str "london")
      (Or.inl (fun _ h => by cases h)),
    by decide,
    ((C6_cardinality_check none emptyCache sampleUpstream [0]).2 ["london"] (by decide)).2⟩

theorem C7_counterexample :
    postWeather none emptyCache sampleUpstream [0, 1] (.arr [.str "london", .str ""]) =
      ⟨.json 200 (.arr [sampleSnapshot, sampleSnapshot]),
        ["weather_london", "weather_"],
        [[.str "london", .str ""]],
        [⟨0, "weather_london", JSON.stringify sampleSnapshot, .num 3600⟩,
          ⟨1, "weather_", JSON.stringify sampleSnapshot, .num 3600⟩]⟩
    ∧ postWeather none emptyCache sampleUpstream [0] (.arr [.num 42]) =
      ⟨.json 200 (.arr [sampleSnapshot]),
        ["weather_42"],
        [[.num 42]],
        [⟨0, "weather_42", JSON.stringify sampleSnapshot, .num 3600⟩]⟩ := by
  constructor <;> decide

theorem cacheKey_primitive (loc : JSVal) (h : isPrimitiveLocation loc = true) :
    ∃ key, cacheKey loc = .ok key := by
  cases loc with
  | str s => exact ⟨_, rfl⟩
  | num n => exact ⟨_, rfl⟩
  | bool b => exact ⟨_, rfl⟩
  | undefined => cases h
  | null => cases h
  | arr xs => cases h
  | obj fs => cases h

theorem cacheKeys_primitive (locs : List JSVal)
    (h : ∀ loc ∈ locs, isPrimitiveLocation loc = true) : ∃ keys, cacheKeys locs = .ok keys := by
  induction locs with
  | nil => exact ⟨[], rfl⟩
  | cons x xs ih =>
    obtain ⟨k, hk⟩ := cacheKey_primitive x (h x (List.mem_cons_self _ _))
    obtain ⟨ks, hks⟩ := ih (fun loc hloc => h loc (List.mem_cons_of_mem _ hloc))
    exact ⟨k :: ks, by simp only [cacheKeys, hk, hks]⟩

/-- C7, as amended: a batch of 1 to 10 elements that are strings (the empty string
included), numbers or booleans is not rejected. The validation reads only the array and its
length; the handler derives a key from the `toString()` of every element, looks every key up
in the cache and answers 200 with an array of the length of the batch. -/
theorem C7_elements_not_validated (envSeconds : Option String)
    (cache : Nat → String → CacheGetResult) (axiosGet : JSVal → AxiosResult)
    (order : List Nat) (locs : List JSVal) (h1 : 1 ≤ locs.length) (h10 : locs.length ≤ 10)
    (hprim : ∀ loc ∈ locs, isPrimitiveLocation loc = true)
    (hperm : order.Perm (List.range locs.length)) :
    ∃ (keys : List String) (out : List JSVal),
      cacheKeys locs = .ok keys
      ∧ keys.length = locs.length
      ∧ (postWeather envSeconds cache axiosGet order (.arr locs)).cacheGets = keys
      ∧ (postWeather envSeconds cache axiosGet order (.arr locs)).response =
          .json 200 (.arr out)
      ∧ out.length = locs.length := by
  obtain ⟨keys, hk⟩ := cacheKeys_primitive locs hprim
  rw [postWeather_eq envSeconds cache axiosGet order locs keys h1 h10 hk hperm]
  exact ⟨keys, _, hk, cacheKeys_length locs keys hk, rfl, rfl, mapWithIndex_length _ _ _⟩

theorem C7_elements_not_validated_witness :
    1 ≤ [JSVal.str "london", JSVal.str ""].length
    ∧ [JSVal.str "london", JSVal.str ""].length ≤ 10
    ∧ (∀ loc ∈ [JSVal.str "london", JSVal.str ""], isPrimitiveLocation loc = true)
    ∧ [0, 1].Perm (List.range [JSVal.str "london", JSVal.str ""].length)
    ∧ ∃ (keys : List String) (out : List JSVal),
      cacheKeys [JSVal.str "london", JSVal.str ""] = .ok keys
      ∧ keys.length = [JSVal.str "london", JSVal.str ""].length
      ∧ (postWeather none emptyCache sampleUpstream [0, 1]
          (.arr [.str "london", .str ""])).cacheGets = keys
      ∧ (postWeather none emptyCache sampleUpstream [0, 1]
          (.arr [.str "london", .str ""])).response = .json 200 (.arr out)
      ∧ out.length = [JSVal.str "london", JSVal.str ""].length :=
  ⟨by decide, by decide, by decide, by decide,
    C7_elements_not_validated none emptyCache sampleUpstream [0, 1]
      [.str "london", .str ""] (by decide) (by decide) (by decide) (by decide)⟩

/-! ## Defects -/

theorem resolveOne_hit (axiosGet : JSVal → AxiosResult) (location : JSVal)
    (got : CacheGetResult) (parsed : JSVal) (h : hitValue got = some parsed) :
    resolveOne axiosGet location got = finalResult (fun _ => parsed) location 0 := by
  simp only [resolveOne, h]

/-- The run of the handler on a batch of one string whose lookup stores a value. -/
theorem postWeather_single_hit (envSeconds : Option String) (axiosGet : JSVal → AxiosResult)
    (s body : String) (parsed : JSVal) (h : hitValue (.data body) = some parsed) :
    postWeather envSeconds (constantCache body) axiosGet [0] (.arr [.str s]) =
      ⟨.json 200 (.arr [finalResult (fun _ => parsed) (.str s) 0]), [normalizeKey s], [], []⟩ := by
  have hrun := postWeather_strings envSeconds (constantCache body) axiosGet [0] [s]
    (by simp) (by simp) (by simp [List.range_succ])
  have hpend : pendingItems (constantCache body) [JSVal.str s] [normalizeKey s] [0] = [] := by
    simp [pendingItems, pendingItem, hitAt, constantCache, h]
  simp only [List.map_cons, List.map_nil] at hrun
  rw [hrun, hpend]
  simp [mapWithIndex, constantCache, resolveOne_hit _ _ _ _ h]

/-- C9: a cached body that carries `status: 'fulfilled'` and no `value` (or the value
`null`) is read by the assembly as a settled fetch, and the element of the response is
`undefined` (or `null`), for every location and every provider; the bodies `null` and `0`
do reach the fallback record. -/
theorem C9_cached_status_gives_undefined (envSeconds : Option String)
    (axiosGet : JSVal → AxiosResult) (s : String) :
    postWeather envSeconds (constantCache "\x7b\"status\":\"fulfilled\"\x7d") axiosGet [0]
        (.arr [.str s]) =
      ⟨.json 200 (.arr [.undefined]), [normalizeKey s], [], []⟩
    ∧ postWeather envSeconds (constantCache "\x7b\"status\":\"fulfilled\",\"value\":null\x7d")
        axiosGet [0] (.arr [.str s]) =
      ⟨.json 200 (.arr [.null]), [normalizeKey s], [], []⟩
    ∧ postWeather envSeconds (constantCache "null") axiosGet [0] (.arr [.str s]) =
      ⟨.json 200 (.arr [failureRecord (.str s) "Data not found or processing error"]),
        [normalizeKey s], [], []⟩
    ∧ postWeather envSeconds (constantCache "0") axiosGet [0] (.arr [.str s]) =
      ⟨.json 200 (.arr [failureRecord (.str s) "Data not found or processing error"]),
        [normalizeKey s], [], []⟩ := by
  refine ⟨?_, ?_, ?_, ?_⟩
  · exact postWeather_single_hit envSeconds axiosGet s _
      (.obj [("status", .str "fulfilled")]) (by decide)
  · exact postWeather_single_hit envSeconds axiosGet s _
      (.obj [("status", .str "fulfilled"), ("value", .null)]) (by decide)
  · exact postWeather_single_hit envSeconds axiosGet s _ .null (by decide)
  · exact postWeather_single_hit envSeconds axiosGet s _ (.num 0) (by decide)

/-- C10: the Error thrown for a 200 answer without `currentConditions` is thrown inside the
`try` block, so the `catch` clause replaces its message by the one of a network error; an
answer with status 400 or 404 gives `Location not found or invalid`, any other error status
gives `API error ... Status`. -/
theorem C10_no_conditions_message_is_lost (s message : String) (status : Nat) (data : JSVal) :
    tryBlock (.response status (.obj [])) (.str s) s =
      .error ⟨"No current weather conditions found for " ++ s, none⟩
    ∧ getWeatherByCity (fun _ => .response status (.obj [])) (.str s) =
      .error ("Failed to fetch weather data for " ++ s ++ " from external API")
    ∧ getWeatherByCity (fun _ => .noResponse message) (.str s) =
      .error ("Failed to fetch weather data for " ++ s ++ " from external API")
    ∧ getWeatherByCity (fun _ => .errorResponse 400 data) (.str s) =
      .error ("Location not found or invalid: " ++ s)
    ∧ getWeatherByCity (fun _ => .errorResponse 404 data) (.str s) =
      .error ("Location not found or invalid: " ++ s)
    ∧ getWeatherByCity (fun _ => .errorResponse status data) (.str s) =
      .error (if status = 400 ∨ status = 404 then "Location not found or invalid: " ++ s
        else "API error for " ++ s ++ ": Status " ++ toString status)
    ∧ getWeatherByCity (fun _ => .response 200 (.obj [])) (.str "london") =
      getWeatherByCity (fun _ => .noResponse "connect ECONNREFUSED") (.str "london") := by
  refine ⟨rfl, rfl, rfl, rfl, rfl, ?_, rfl⟩
  simp only [getWeatherByCity, JSVal.toStr, tryBlock, catchBlock]

/-! ## The round trip of a snapshot through the cache -/

theorem hex4_control : ∀ n, n < 32 →
    hex4 '0' '0' (hexDigit (n / 16)) (hexDigit (n % 16)) = some n := by
  decide

theorem parseStringBody_escapeChar (c : Char) (t : List Char) :
    parseStringBody (escapeChar c ++ t) = consChar c (parseStringBody t) := by
  unfold escapeChar
  split
  · rename_i h
    subst h
    rw [parseStringBody.eq_def]
    simp
  · split
    · rename_i h
      subst h
      rw [parseStringBody.eq_def]
      simp
    · split
      · rename_i h
        subst h
        rw [parseStringBody.eq_def]
        simp
      · split
        · rename_i h
          subst h
          rw [parseStringBody.eq_def]
          simp
        · split
          · rename_i h
            subst h
            rw [parseStringBody.eq_def]
            simp
          · split
            · rename_i h
              subst h
              rw [parseStringBody.eq_def]
              simp
            · split
              · rename_i h
                subst h
                rw [parseStringBody.eq_def]
                simp
              · split
                · rename_i h
                  have hx := hex4_control c.toNat h
                  have hs : ¬ (0xD800 ≤ c.toNat ∧ c.toNat ≤ 0xDFFF) := by omega
                  rw [parseStringBody.eq_def]
                  simp only [List.cons_append, List.nil_append, hx, hs, if_false,
                    Char.ofNat_toNat]
                  simp
                · rename_i h1 h2 h3 h4 h5 h6 h7 h8
                  rw [parseStringBody.eq_def]
                  simp only [List.cons_append, List.nil_append, h1, h2, h8, if_false]

theorem parseStringBody_escapeChars (s rest : List Char) :
    parseStringBody (escapeChars s ++ '"' :: rest) = some (s, rest) := by
  induction s with
  | nil =>
    rw [parseStringBody.eq_def]
    simp [escapeChars]
  | cons c cs ih =>
    simp only [escapeChars, List.append_assoc]
    rw [parseStringBody_escapeChar, ih]
    rfl

theorem skipWs_quote (t : List Char) : skipWs ('"' :: t) = '"' :: t := by
  simp [skipWs]

theorem skipWs_colon (t : List Char) : skipWs (':' :: t) = ':' :: t := by
  simp [skipWs]

theorem skipWs_comma (t : List Char) : skipWs (',' :: t) = ',' :: t := by
  simp [skipWs]

theorem skipWs_close (t : List Char) : skipWs ('}' :: t) = '}' :: t := by
  simp [skipWs]

theorem parseValue_string (fuel : Nat) (s : String) (rest : List Char) :
    parseValue (fuel + 1) (quoteJSONString s ++ rest) = some (.str s, rest) := by
  simp only [quoteJSONString, List.cons_append, List.append_assoc, List.nil_append,
    parseValue, skipWs_quote, parseStringBody_escapeChars]
  simp

theorem parseMembers_comma (g : Nat) (kv : String × String) (rest : List Char) :
    parseMembers (g + 2) (memberText kv ++ ',' :: rest) =
      match parseMembers (g + 1) rest with
      | none => none
      | some (ms, rest5) => some ((kv.1, JSVal.str kv.2) :: ms, rest5) := by
  have hv := parseValue_string g kv.2 (',' :: rest)
  conv_lhs => rw [parseMembers]
  simp only [memberText, quoteJSONString, List.cons_append, List.append_assoc,
    List.nil_append, skipWs_quote, parseStringBody_escapeChars, skipWs_colon] at hv ⊢
  simp only [if_true, hv, skipWs_comma]

theorem parseMembers_close (g : Nat) (kv : String × String) (rest : List Char) :
    parseMembers (g + 2) (memberText kv ++ '}' :: rest) =
      some ([(kv.1, JSVal.str kv.2)], rest) := by
  have hv := parseValue_string g kv.2 ('}' :: rest)
  conv_lhs => rw [parseMembers]
  simp only [memberText, quoteJSONString, List.cons_append, List.append_assoc,
    List.nil_append, skipWs_quote, parseStringBody_escapeChars, skipWs_colon] at hv ⊢
  simp [hv, skipWs_close]

theorem parseMembers_strings (fields : List (String × String)) :
    ∀ (first : String × String) (fuel : Nat) (rest : List Char), fields.length + 2 ≤ fuel →
      parseMembers fuel (memberText first ++ moreMembers fields ++ '}' :: rest) =
        some ((first.1, JSVal.str first.2) ::
          fields.map (fun kv => (kv.1, JSVal.str kv.2)), rest) := by
  induction fields with
  | nil =>
    intro first fuel rest hfuel
    obtain ⟨g, rfl⟩ : ∃ g, fuel = g + 2 := ⟨fuel - 2, by simp at hfuel; omega⟩
    simp only [moreMembers, List.append_nil, List.map_nil]
    exact parseMembers_close g first rest
  | cons kv more ih =>
    intro first fuel rest hfuel
    obtain ⟨g, rfl⟩ : ∃ g, fuel = g + 2 := ⟨fuel - 2, by simp at hfuel; omega⟩
    have hrec := ih kv (g + 1) rest (by simp at hfuel ⊢; omega)
    simp only [moreMembers, List.cons_append, List.append_assoc, List.map_cons] at hrec ⊢
    rw [parseMembers_comma, hrec]

theorem serializeMembers_strings (fields : List (String × String)) :
    serializeMembers (fields.map (fun kv => (kv.1, JSVal.str kv.2))) =
      fields.map memberText := by
  induction fields with
  | nil => simp [serializeMembers]
  | cons kv rest ih =>
    simp only [List.map_cons, serializeMembers, serialize, ih, memberText]

theorem intercalate_members (more : List (String × String)) :
    ∀ first : String × String,
      List.intercalate [','] ((first :: more).map memberText) =
        memberText first ++ moreMembers more := by
  induction more with
  | nil =>
    intro first
    simp [List.intercalate, List.intersperse, moreMembers]
  | cons kv rest ih =>
    intro first
    have := ih kv
    simp only [List.intercalate, List.map_cons, List.intersperse, List.flatten,
      moreMembers] at this ⊢
    rw [this]
    simp

theorem setField_append (k : String) (v : JSVal) (acc : List (String × JSVal))
    (h : k ∉ acc.map (fun kv => kv.1)) : setField k v acc = acc ++ [(k, v)] := by
  induction acc with
  | nil => rfl
  | cons x xs ih =>
    simp only [List.map_cons, List.mem_cons, not_or] at h
    have hx : ¬ x.1 = k := fun e => h.1 e.symm
    obtain ⟨k1, v1⟩ := x
    simp only [setField, hx, if_false, ih h.2, List.cons_append]

theorem foldl_setField (members acc : List (String × JSVal))
    (h : ((acc ++ members).map (fun kv => kv.1)).Nodup) :
    members.foldl (fun acc kv => setField kv.1 kv.2 acc) acc = acc ++ members := by
  induction members generalizing acc with
  | nil => simp
  | cons m ms ih =>
    have hm : m.1 ∉ acc.map (fun kv => kv.1) := by
      intro hin
      rw [List.map_append, List.nodup_append] at h
      exact h.2.2 hin (by simp)
    rw [List.foldl_cons, setField_append _ _ _ hm, ih]
    · simp
    · simpa using h

theorem buildObject_nodup (members : List (String × JSVal))
    (h : (members.map (fun kv => kv.1)).Nodup) : buildObject members = .obj members := by
  unfold buildObject
  rw [foldl_setField members [] (by simpa using h)]
  rfl

theorem moreMembers_length (more : List (String × String)) :
    more.length ≤ (moreMembers more).length := by
  induction more with
  | nil => simp
  | cons kv rest ih =>
    simp only [moreMembers, List.length_cons, List.length_append]
    omega

theorem skipWs_open (t : List Char) : skipWs ('{' :: t) = '{' :: t := by
  simp [skipWs]

/-- An object whose values are strings and whose names are distinct is read back from its
serialization. -/
theorem parse_stringify_strings (first : String × String) (more : List (String × String))
    (hnodup : ((first :: more).map (fun kv => kv.1)).Nodup) :
    ∃ text : String,
      JSON.stringify (.obj ((first :: more).map (fun kv => (kv.1, JSVal.str kv.2)))) = .str text
      ∧ (JSVal.str text).truthy = true
      ∧ JSON.parse text = some (.obj ((first :: more).map (fun kv => (kv.1, JSVal.str kv.2)))) := by
  refine ⟨String.mk ('{' :: (memberText first ++ moreMembers more ++ ['}'])), ?_, ?_, ?_⟩
  · simp only [JSON.stringify, serialize, serializeMembers_strings, intercalate_members]
  · apply truthy_str
    intro h
    have := congrArg String.data h
    simp at this
  · have hlen : more.length + 2 ≤
        2 * (String.mk ('{' :: (memberText first ++ moreMembers more ++ ['}']))).length + 1 := by
      have := moreMembers_length more
      simp only [String.length, List.length_cons, List.length_append, List.length_nil]
      omega
    have hkeys : (((first.1, JSVal.str first.2) ::
        more.map (fun kv => (kv.1, JSVal.str kv.2))).map (fun kv => kv.1)).Nodup := by
      simpa [List.map_map, Function.comp_def] using hnodup
    simp only [JSON.parse]
    generalize (String.mk ('{' :: (memberText first ++ moreMembers more ++ ['}']))).length = n
      at hlen ⊢
    have hm := parseMembers_strings more first (2 * n + 1) [] hlen
    conv_lhs => rw [parseValue]
    simp only [skipWs_open, if_true]
    simp only [memberText, quoteJSONString, List.cons_append, List.append_assoc,
      List.nil_append, skipWs_quote] at hm ⊢
    simp [hm, buildObject_nodup _ hkeys, skipWs]

theorem hitValue_snapshot (location temperature description humidity windSpeed source
    body : String)
    (h : JSON.stringify (snapshot location temperature description humidity windSpeed source) =
      .str body) :
    hitValue (.data body) =
      some (snapshot location temperature description humidity windSpeed source) := by
  obtain ⟨text, hs, ht, hp⟩ := parse_stringify_strings ("location", location)
    [("temperature", temperature), ("description", description), ("humidity", humidity),
      ("windSpeed", windSpeed), ("source", source)]
    (by
      show ["location", "temperature", "description", "humidity", "windSpeed",
        "source"].Nodup
      decide)
  have hsnap : snapshot location temperature description humidity windSpeed source =
      .obj ((("location", location) ::
        [("temperature", temperature), ("description", description), ("humidity", humidity),
          ("windSpeed", windSpeed), ("source", source)]).map
        (fun kv => (kv.1, JSVal.str kv.2))) := rfl
  rw [hsnap] at h ⊢
  rw [hs] at h
  cases h
  simp only [hitValue, ht, if_true, hp]

theorem finalResult_snapshot (location temperature description humidity windSpeed source : String)
    (loc : JSVal) :
    finalResult (fun _ => snapshot location temperature description humidity windSpeed source)
        loc 0 =
      snapshot location temperature description humidity windSpeed source := by
  simp [finalResult, snapshot, JSVal.get, JSVal.isStr, List.lookup]

/-- C4: on a valid batch, when the cache holds for the key of `locations[i]` the
serialization of a weather snapshot, element `i` of the response is that snapshot,
`locationsToFetch` has no entry for index `i`, the fetcher is called only with the
locations of `locationsToFetch`, and no cache write is made for index `i`; when every index
is such a hit, `getWeatherForLocations` is not called and no cache write is made. -/
theorem C4_cache_hit_path (envSeconds : Option String)
    (cache : Nat → String → CacheGetResult) (axiosGet : JSVal → AxiosResult)
    (order : List Nat) (names : List String) (hvalid : validBatch names)
    (hperm : order.Perm (List.range names.length)) :
    (∀ (i : Nat) (hi : i < names.length)
        (location temperature description humidity windSpeed source body : String),
      JSON.stringify (snapshot location temperature description humidity windSpeed source) =
        .str body →
      cache i (normalizeKey names[i]) = .data body →
      (∃ out : List JSVal,
        (postWeather envSeconds cache axiosGet order (.arr (names.map JSVal.str))).response =
          .json 200 (.arr out)
        ∧ out[i]? = some (snapshot location temperature description humidity windSpeed source))
      ∧ (∀ item ∈ (cachePhase cache (names.map JSVal.str) (names.map normalizeKey)
            order).locationsToFetch, item.originalIndex ≠ i)
      ∧ (postWeather envSeconds cache axiosGet order (.arr (names.map JSVal.str))).serviceCalls =
          (if (cachePhase cache (names.map JSVal.str) (names.map normalizeKey)
              order).locationsToFetch.length > 0 then
            [(cachePhase cache (names.map JSVal.str) (names.map normalizeKey)
              order).locationsToFetch.map (fun item => item.location)]
          else [])
      ∧ (postWeather envSeconds cache axiosGet order (.arr (names.map JSVal.str))).cacheSets.filter
          (fun c => decide (c.originalIndex = i)) = [])
    ∧ ((∀ (i : Nat) (hi : i < names.length),
          ∃ location temperature description humidity windSpeed source body : String,
            JSON.stringify
                (snapshot location temperature description humidity windSpeed source) =
              .str body
            ∧ cache i (normalizeKey names[i]) = .data body) →
        (postWeather envSeconds cache axiosGet order (.arr (names.map JSVal.str))).serviceCalls =
          []
        ∧ (postWeather envSeconds cache axiosGet order (.arr (names.map JSVal.str))).cacheSets =
          []) := by
  rw [postWeather_strings envSeconds cache axiosGet order names hvalid.1 hvalid.2.1 hperm]
  constructor
  · intro i hi location temperature description humidity windSpeed source body hbody hcache
    have hhit : hitValue (cache i (normalizeKey names[i])) =
        some (snapshot location temperature description humidity windSpeed source) := by
      rw [hcache]
      exact hitValue_snapshot _ _ _ _ _ _ _ hbody
    refine ⟨⟨_, rfl, ?_⟩, ?_, ?_, ?_⟩
    · rw [strings_element axiosGet cache names i hi]
      simp only [resolveOne, hhit, finalResult_snapshot]
    · intro item hitem heq
      rw [cachePhase_toFetch] at hitem
      unfold pendingItems at hitem
      rw [List.mem_filterMap] at hitem
      obtain ⟨j, _, hj⟩ := hitem
      obtain ⟨hitem_eq, hnone, _⟩ := pendingItem_index _ _ _ _ _ hj
      rw [hitem_eq] at heq
      simp only at heq
      subst heq
      rw [hitAt_strings cache names j hi, hhit] at hnone
      cases hnone
    · rw [cachePhase_toFetch]
    · simp only
      rw [cacheSets_at _ cache axiosGet order names hperm i hi, hhit]
  · intro hall
    have hempty : pendingItems cache (names.map JSVal.str) (names.map normalizeKey) order =
        [] := by
      unfold pendingItems
      rw [List.filterMap_eq_nil_iff]
      intro j hj
      have hjlt : j < names.length := List.mem_range.mp ((hperm.mem_iff).mp hj)
      obtain ⟨l, t, d, h, w, s, body, hbody, hcache⟩ := hall j hjlt
      rw [pendingItem_strings cache names j hjlt, hcache, hitValue_snapshot _ _ _ _ _ _ _ hbody]
    simp [hempty]

set_option maxRecDepth 100000 in
theorem C4_cache_hit_path_witness :
    validBatch ["validcity", "badcity"] ∧ [1, 0].Perm (List.range 2)
    ∧ getWeatherByCity sampleUpstream (.str "validcity") = .ok sampleSnapshot
    ∧ postWeather none
        (fun _ _ => .data ("\x7b\"location\":\"Valid City\",\"temperature\":\"21°C\"," ++
          "\"description\":\"Clear\",\"humidity\":\"40%\",\"windSpeed\":\"7 km/h\"," ++
          "\"source\":\"Visual Crossing API\"\x7d"))
        sampleUpstream [1, 0] (.arr [.str "validcity", .str "badcity"]) =
      ⟨.json 200 (.arr [sampleSnapshot, sampleSnapshot]),
        ["weather_validcity", "weather_badcity"], [], []⟩
    ∧ ∃ out : List JSVal,
        (postWeather none
          (fun _ _ => .data ("\x7b\"location\":\"Valid City\",\"temperature\":\"21°C\"," ++
            "\"description\":\"Clear\",\"humidity\":\"40%\",\"windSpeed\":\"7 km/h\"," ++
            "\"source\":\"Visual Crossing API\"\x7d"))
          sampleUpstream [1, 0] (.arr [.str "validcity", .str "badcity"])).response =
          .json 200 (.arr out)
        ∧ out[1]? = some (snapshot "Valid City" "21°C" "Clear" "40%" "7 km/h"
            "Visual Crossing API") :=
  ⟨by decide, by decide, by decide, by decide,
    ((C4_cache_hit_path none
      (fun _ _ => .data ("\x7b\"location\":\"Valid City\",\"temperature\":\"21°C\"," ++
        "\"description\":\"Clear\",\"humidity\":\"40%\",\"windSpeed\":\"7 km/h\"," ++
        "\"source\":\"Visual Crossing API\"\x7d"))
      sampleUpstream [1, 0] ["validcity", "badcity"] (by decide) (by decide)).1 1 (by decide)
      "Valid City" "21°C" "Clear" "40%" "7 km/h" "Visual Crossing API" _ (by decide) rfl).1⟩

/-! ## The fuel of the parser -/

theorem skipWs_length (cs : List Char) : (skipWs cs).length ≤ cs.length := by
  induction cs with
  | nil => simp [skipWs]
  | cons c rest ih =>
    simp only [skipWs]
    split
    · simp only [List.length_cons]
      omega
    · simp

theorem skipWs_cons_length (cs rest : List Char) (c : Char) (h : skipWs cs = c :: rest) :
    rest.length + 1 ≤ cs.length := by
  have := skipWs_length cs
  rw [h] at this
  simpa using this

theorem consChar_eq_some (c : Char) (r : Option (List Char × List Char)) (s rest : List Char)
    (h : consChar c r = some (s, rest)) : ∃ s1, r = some (s1, rest) := by
  cases r with
  | none => cases h
  | some p =>
    obtain ⟨s1, r1⟩ := p
    simp only [consChar, Option.some.injEq, Prod.mk.injEq] at h
    exact ⟨s1, by rw [h.2]⟩

theorem parseStringBody_length (n : Nat) : ∀ (cs s rest : List Char), cs.length ≤ n →
    parseStringBody cs = some (s, rest) → rest.length + 1 ≤ cs.length := by
  induction n with
  | zero =>
    intro cs s rest hn h
    cases cs with
    | nil => rw [parseStringBody.eq_def] at h; cases h
    | cons c t => simp at hn
  | succ n ih =>
    intro cs s rest hn h
    cases cs with
    | nil => rw [parseStringBody.eq_def] at h; cases h
    | cons c t =>
      rw [parseStringBody.eq_def] at h
      dsimp only at h
      simp only [List.length_cons] at hn ⊢
      by_cases hq : c = '"'
      · rw [if_pos hq] at h
        cases h
        omega
      · rw [if_neg hq] at h
        by_cases hb : c = '\\'
        · rw [if_pos hb] at h
          cases t with
          | nil => cases h
          | cons e t1 =>
            simp only [List.length_cons] at hn ⊢
            dsimp only at h
            have hrec : ∀ (x : Char) (t2 : List Char), t2.length ≤ t1.length →
                consChar x (parseStringBody t2) = some (s, rest) →
                rest.length + 1 ≤ t1.length + 1 + 1 := by
              intro x t2 ht2 hx
              obtain ⟨s1, hs1⟩ := consChar_eq_some _ _ _ _ hx
              have := ih _ _ _ (by omega) hs1
              omega
            by_cases h1 : e = '"'
            · rw [if_pos h1] at h
              exact hrec _ _ (Nat.le_refl _) h
            rw [if_neg h1] at h
            by_cases h2 : e = '\\'
            · rw [if_pos h2] at h
              exact hrec _ _ (Nat.le_refl _) h
            rw [if_neg h2] at h
            by_cases h3 : e = '/'
            · rw [if_pos h3] at h
              exact hrec _ _ (Nat.le_refl _) h
            rw [if_neg h3] at h
            by_cases h4 : e = 'b'
            · rw [if_pos h4] at h
              exact hrec _ _ (Nat.le_refl _) h
            rw [if_neg h4] at h
            by_cases h5 : e = 'f'
            · rw [if_pos h5] at h
              exact hrec _ _ (Nat.le_refl _) h
            rw [if_neg h5] at h
            by_cases h6 : e = 'n'
            · rw [if_pos h6] at h
              exact hrec _ _ (Nat.le_refl _) h
            rw [if_neg h6] at h
            by_cases h7 : e = 'r'
            · rw [if_pos h7] at h
              exact hrec _ _ (Nat.le_refl _) h
            rw [if_neg h7] at h
            by_cases h8 : e = 't'
            · rw [if_pos h8] at h
              exact hrec _ _ (Nat.le_refl _) h
            rw [if_neg h8] at h
            by_cases h9 : e = 'u'
            · rw [if_pos h9] at h
              match t1, h, hrec with
              | [], h, _ => cases h
              | [_], h, _ => cases h
              | [_, _], h, _ => cases h
              | [_, _, _], h, _ => cases h
              | a :: b :: c1 :: d :: rest2, h, hrec =>
                dsimp only at h
                cases hx : hex4 a b c1 d with
                | none => rw [hx] at h; cases h
                | some m =>
                  rw [hx] at h
                  dsimp only at h
                  by_cases hs : 55296 ≤ m ∧ m ≤ 57343
                  · rw [if_pos hs] at h
                    cases h
                  · rw [if_neg hs] at h
                    exact hrec _ _ (by simp only [List.length_cons]; omega) h
            · rw [if_neg h9] at h
              cases h
        · rw [if_neg hb] at h
          by_cases hctl : c.toNat < 32
          · rw [if_pos hctl] at h
            cases h
          · rw [if_neg hctl] at h
            obtain ⟨s1, hs1⟩ := consChar_eq_some _ _ _ _ h
            have := ih _ _ _ (by omega) hs1
            omega

theorem parseDigits_length (cs : List Char) : ∀ acc : Nat,
    (parseDigits acc cs).2.length ≤ cs.length := by
  induction cs with
  | nil => intro acc; simp [parseDigits]
  | cons c rest ih =>
    intro acc
    simp only [parseDigits]
    by_cases h : 48 ≤ c.toNat ∧ c.toNat ≤ 57
    · rw [if_pos h]
      have := ih (acc * 10 + (c.toNat - 48))
      simp only [List.length_cons]
      omega
    · rw [if_neg h]

theorem finishNumber_rest (negative : Bool) (n : Nat) (rest : List Char) (v : JSVal)
    (r : List Char) (h : finishNumber negative n rest = some (v, r)) : r = rest := by
  unfold finishNumber at h
  cases rest with
  | nil =>
    simp only [Option.some.injEq, Prod.mk.injEq] at h
    exact h.2.symm
  | cons c t =>
    dsimp only at h
    by_cases hc : c = '.' ∨ c = 'e' ∨ c = 'E'
    · rw [if_pos hc] at h
      cases h
    · rw [if_neg hc] at h
      simp only [Option.some.injEq, Prod.mk.injEq] at h
      exact h.2.symm

theorem parseUnsigned_length (negative : Bool) (cs : List Char) (v : JSVal) (r : List Char)
    (h : parseUnsigned negative cs = some (v, r)) : r.length + 1 ≤ cs.length := by
  cases cs with
  | nil => cases h
  | cons d rest =>
    simp only [parseUnsigned] at h
    by_cases h0 : d = '0'
    · rw [if_pos h0] at h
      rw [finishNumber_rest _ _ _ _ _ h]
      simp
    · rw [if_neg h0] at h
      by_cases hd : 49 ≤ d.toNat ∧ d.toNat ≤ 57
      · rw [if_pos hd] at h
        rw [finishNumber_rest _ _ _ _ _ h]
        have := parseDigits_length rest (d.toNat - 48)
        simp only [List.length_cons]
        omega
      · rw [if_neg hd] at h
        cases h

theorem parseNumber_length (cs : List Char) (v : JSVal) (r : List Char)
    (h : parseNumber cs = some (v, r)) : r.length + 1 ≤ cs.length := by
  cases cs with
  | nil => cases h
  | cons c rest =>
    simp only [parseNumber] at h
    by_cases hc : c = '-'
    · rw [if_pos hc] at h
      have := parseUnsigned_length _ _ _ _ h
      simp only [List.length_cons]
      omega
    · rw [if_neg hc] at h
      exact parseUnsigned_length _ _ _ _ h

/-- A parsed value, element list or member list leaves less input than it was given. -/
theorem parse_consumes (fuel : Nat) :
    (∀ cs v r, parseValue fuel cs = some (v, r) → r.length + 1 ≤ cs.length)
    ∧ (∀ cs vs r, parseElements fuel cs = some (vs, r) → r.length + 1 ≤ cs.length)
    ∧ (∀ cs ms r, parseMembers fuel cs = some (ms, r) → r.length + 1 ≤ cs.length) := by
  induction fuel with
  | zero =>
    refine ⟨?_, ?_, ?_⟩ <;> intro cs v r h <;> simp [parseValue, parseElements, parseMembers] at h
  | succ f ih =>
    obtain ⟨ihV, ihE, ihM⟩ := ih
    refine ⟨?_, ?_, ?_⟩
    · intro cs v r h
      rw [parseValue] at h
      cases hs : skipWs cs with
      | nil => rw [hs] at h; cases h
      | cons c rest =>
        rw [hs] at h
        dsimp only at h
        have hlen := skipWs_cons_length _ _ _ hs
        by_cases h1 : c = '{'
        · rw [if_pos h1] at h
          cases hs1 : skipWs rest with
          | nil => rw [hs1] at h; cases h
          | cons c1 rest1 =>
            rw [hs1] at h
            dsimp only at h
            have hlen1 := skipWs_cons_length _ _ _ hs1
            by_cases h2 : c1 = '}'
            · rw [if_pos h2] at h
              cases h
              omega
            · rw [if_neg h2] at h
              cases hm : parseMembers f (c1 :: rest1) with
              | none => rw [hm] at h; cases h
              | some p =>
                obtain ⟨ms, r2⟩ := p
                rw [hm] at h
                cases h
                have := ihM _ _ _ hm
                simp only [List.length_cons] at this
                omega
        · rw [if_neg h1] at h
          by_cases h3 : c = '['
          · rw [if_pos h3] at h
            cases hs1 : skipWs rest with
            | nil => rw [hs1] at h; cases h
            | cons c1 rest1 =>
              rw [hs1] at h
              dsimp only at h
              have hlen1 := skipWs_cons_length _ _ _ hs1
              by_cases h2 : c1 = ']'
              · rw [if_pos h2] at h
                cases h
                omega
              · rw [if_neg h2] at h
                cases hm : parseElements f (c1 :: rest1) with
                | none => rw [hm] at h; cases h
                | some p =>
                  obtain ⟨ms, r2⟩ := p
                  rw [hm] at h
                  cases h
                  have := ihE _ _ _ hm
                  simp only [List.length_cons] at this
                  omega
          · rw [if_neg h3] at h
            by_cases h4 : c = '"'
            · rw [if_pos h4] at h
              cases hp : parseStringBody rest with
              | none => rw [hp] at h; cases h
              | some p =>
                obtain ⟨s, r2⟩ := p
                rw [hp] at h
                cases h
                have := parseStringBody_length _ _ _ _ (Nat.le_refl _) hp
                omega
            · rw [if_neg h4] at h
              by_cases h5 : c = 't'
              · rw [if_pos h5] at h
                split at h
                · cases h
                  simp only [List.length_cons] at hlen
                  omega
                · cases h
              · rw [if_neg h5] at h
                by_cases h6 : c = 'f'
                · rw [if_pos h6] at h
                  split at h
                  · cases h
                    simp only [List.length_cons] at hlen
                    omega
                  · cases h
                · rw [if_neg h6] at h
                  by_cases h7 : c = 'n'
                  · rw [if_pos h7] at h
                    split at h
                    · cases h
                      simp only [List.length_cons] at hlen
                      omega
                    · cases h
                  · rw [if_neg h7] at h
                    have := parseNumber_length _ _ _ h
                    simp only [List.length_cons] at this
                    omega
    · intro cs vs r h
      rw [parseElements] at h
      cases hv : parseValue f cs with
      | none => rw [hv] at h; cases h
      | some p =>
        obtain ⟨v, rest⟩ := p
        rw [hv] at h
        dsimp only at h
        have hlen := ihV _ _ _ hv
        cases hs : skipWs rest with
        | nil => rw [hs] at h; cases h
        | cons c rest1 =>
          rw [hs] at h
          dsimp only at h
          have hlen1 := skipWs_cons_length _ _ _ hs
          by_cases h1 : c = ','
          · rw [if_pos h1] at h
            cases he : parseElements f rest1 with
            | none => rw [he] at h; cases h
            | some q =>
              obtain ⟨ws, r2⟩ := q
              rw [he] at h
              cases h
              have := ihE _ _ _ he
              omega
          · rw [if_neg h1] at h
            by_cases h2 : c = ']'
            · rw [if_pos h2] at h
              cases h
              omega
            · rw [if_neg h2] at h
              cases h
    · intro cs ms r h
      rw [parseMembers] at h
      cases hs : skipWs cs with
      | nil => rw [hs] at h; cases h
      | cons q rest =>
        rw [hs] at h
        dsimp only at h
        have hlen := skipWs_cons_length _ _ _ hs
        by_cases hq : q = '"'
        · rw [if_pos hq] at h
          cases hp : parseStringBody rest with
          | none => rw [hp] at h; cases h
          | some p =>
            obtain ⟨k, rest1⟩ := p
            rw [hp] at h
            dsimp only at h
            have hlenk := parseStringBody_length _ _ _ _ (Nat.le_refl _) hp
            cases hs2 : skipWs rest1 with
            | nil => rw [hs2] at h; cases h
            | cons colon rest2 =>
              rw [hs2] at h
              dsimp only at h
              have hlen2 := skipWs_cons_length _ _ _ hs2
              by_cases hc : colon = ':'
              · rw [if_pos hc] at h
                cases hv : parseValue f rest2 with
                | none => rw [hv] at h; cases h
                | some p2 =>
                  obtain ⟨v, rest3⟩ := p2
                  rw [hv] at h
                  dsimp only at h
                  have hlen3 := ihV _ _ _ hv
                  cases hs4 : skipWs rest3 with
                  | nil => rw [hs4] at h; cases h
                  | cons c rest4 =>
                    rw [hs4] at h
                    dsimp only at h
                    have hlen4 := skipWs_cons_length _ _ _ hs4
                    by_cases h1 : c = ','
                    · rw [if_pos h1] at h
                      cases hm : parseMembers f rest4 with
                      | none => rw [hm] at h; cases h
                      | some q2 =>
                        obtain ⟨ms2, r5⟩ := q2
                        rw [hm] at h
                        cases h
                        have := ihM _ _ _ hm
                        omega
                    · rw [if_neg h1] at h
                      by_cases h2 : c = '}'
                      · rw [if_pos h2] at h
                        cases h
                        omega
                      · rw [if_neg h2] at h
                        cases h
              · rw [if_neg hc] at h
                cases h
        · rw [if_neg hq] at h
          cases h

/-- Above twice the length of the input, one more unit of fuel changes nothing. -/
theorem parse_fuel_step (fuel : Nat) :
    (∀ cs, 2 * cs.length + 1 ≤ fuel → parseValue (fuel + 1) cs = parseValue fuel cs)
    ∧ (∀ cs, 2 * cs.length + 2 ≤ fuel → parseElements (fuel + 1) cs = parseElements fuel cs)
    ∧ (∀ cs, 2 * cs.length + 2 ≤ fuel → parseMembers (fuel + 1) cs = parseMembers fuel cs) := by
  induction fuel with
  | zero =>
    refine ⟨?_, ?_, ?_⟩ <;> intro cs h <;> omega
  | succ g ih =>
    obtain ⟨ihV, ihE, ihM⟩ := ih
    refine ⟨?_, ?_, ?_⟩
    · intro cs h
      conv_lhs => rw [parseValue]
      conv_rhs => rw [parseValue]
      cases hs : skipWs cs with
      | nil => rfl
      | cons c rest =>
        dsimp only
        have hlen := skipWs_cons_length _ _ _ hs
        by_cases h1 : c = '{'
        · rw [if_pos h1, if_pos h1]
          cases hs1 : skipWs rest with
          | nil => rfl
          | cons c1 rest1 =>
            dsimp only
            have hlen1 := skipWs_cons_length _ _ _ hs1
            rw [ihM (c1 :: rest1) (by simp only [List.length_cons]; omega)]
        · rw [if_neg h1, if_neg h1]
          by_cases h3 : c = '['
          · rw [if_pos h3, if_pos h3]
            cases hs1 : skipWs rest with
            | nil => rfl
            | cons c1 rest1 =>
              dsimp only
              have hlen1 := skipWs_cons_length _ _ _ hs1
              rw [ihE (c1 :: rest1) (by simp only [List.length_cons]; omega)]
          · rw [if_neg h3, if_neg h3]
    · intro cs h
      conv_lhs => rw [parseElements]
      conv_rhs => rw [parseElements]
      rw [ihV cs (by omega)]
      cases hv : parseValue g cs with
      | none => rfl
      | some p =>
        obtain ⟨v, rest⟩ := p
        dsimp only
        have hlen := (parse_consumes g).1 _ _ _ hv
        cases hs : skipWs rest with
        | nil => rfl
        | cons c rest1 =>
          dsimp only
          have hlen1 := skipWs_cons_length _ _ _ hs
          by_cases h1 : c = ','
          · rw [if_pos h1, if_pos h1, ihE rest1 (by omega)]
          · rw [if_neg h1, if_neg h1]
    · intro cs h
      conv_lhs => rw [parseMembers]
      conv_rhs => rw [parseMembers]
      cases hs : skipWs cs with
      | nil => rfl
      | cons q rest =>
        dsimp only
        have hlen := skipWs_cons_length _ _ _ hs
        by_cases hq : q = '"'
        · rw [if_pos hq, if_pos hq]
          cases hp : parseStringBody rest with
          | none => rfl
          | some p =>
            obtain ⟨k, rest1⟩ := p
            dsimp only
            have hlenk := parseStringBody_length _ _ _ _ (Nat.le_refl _) hp
            cases hs2 : skipWs rest1 with
            | nil => rfl
            | cons colon rest2 =>
              dsimp only
              have hlen2 := skipWs_cons_length _ _ _ hs2
              by_cases hc : colon = ':'
              · rw [if_pos hc, if_pos hc, ihV rest2 (by omega)]
                cases hv : parseValue g rest2 with
                | none => rfl
                | some p2 =>
                  obtain ⟨v, rest3⟩ := p2
                  dsimp only
                  have hlen3 := (parse_consumes g).1 _ _ _ hv
                  cases hs4 : skipWs rest3 with
                  | nil => rfl
                  | cons c rest4 =>
                    dsimp only
                    have hlen4 := skipWs_cons_length _ _ _ hs4
                    by_cases h1 : c = ','
                    · rw [if_pos h1, if_pos h1, ihM rest4 (by omega)]
                    · rw [if_neg h1, if_neg h1]
              · rw [if_neg hc, if_neg hc]
        · rw [if_neg hq, if_neg hq]

theorem parseValue_fuel_add (cs : List Char) (k : Nat) :
    parseValue (2 * cs.length + 2 + k) cs = parseValue (2 * cs.length + 2) cs := by
  induction k with
  | zero => rfl
  | succ k ih =>
    rw [← ih]
    exact (parse_fuel_step (2 * cs.length + 2 + k)).1 cs (by omega)

/-- The fuel `JSON.parse` gives its parser is enough: with any larger fuel the parser
returns the same result on the same text. -/
theorem parseValue_fuel_enough (text : String) (fuel : Nat)
    (h : 2 * text.length + 2 ≤ fuel) :
    parseValue fuel text.data = parseValue (2 * text.length + 2) text.data := by
  obtain ⟨k, rfl⟩ : ∃ k, fuel = 2 * text.length + 2 + k := ⟨fuel - (2 * text.length + 2), by omega⟩
  exact parseValue_fuel_add text.data k

end WeatherAPI
